import Mathlib

/-!
# Verification of the truck-yard logistics dashboard data pipeline

A shallow embedding, in Lean 4, of the data normalization and aggregation
pipeline of the dashboard (source: `src/App.tsx`):

* `robustParseCSV` — the CSV decoder (quoted fields, doubled quotes, CRLF);
* `findColIdx` — the keyword-based column resolver;
* `smartParseDate` — the date/time normalizer (year-first, day-first, fallback);
* `parseNumberSafe` — the numeric normalizer (thousands separators);
* `getShiftDateString` / `formatDateToISO` — the 07:00-anchored shift day;
* the record builder of `fetchCSV`, and the aggregations `filteredData`,
  `paretoData` and `todayMonitor`.

Modelling conventions:
* JavaScript numbers are modelled as `ℚ` (exact rationals); `Math.round x`
  is `⌊x + 1/2⌋`, and `toFixed(1)` followed by `parseFloat` is rounding to
  one decimal with ties toward `+∞`, matching the ECMA definitions on the
  values arising here.
* A JavaScript `Date` is modelled by its time value counted in minutes since
  the epoch (an `Int`); the component accessors use the standard
  days-from-civil / civil-from-days conversions, which agree with ECMA's
  `MakeDay`/`MakeTime`/`YearFromTime` family at minute resolution.
* The generic `new Date(string)` fallback parser of `smartParseDate` is an
  engine-defined black box; it is modelled as an explicit function parameter
  `fb : String → Option Int` and theorems quantify over it.
* `String.toLowerCase` is modelled by `Char.toLower` (ASCII case mapping);
  the material keywords exercised here are ASCII or Chinese, where the two
  agree.
-/

/-- `Math.round` of JavaScript: round half toward positive infinity. -/
def jsRound (q : ℚ) : ℤ := ⌊q + 1/2⌋

/-- `x.toFixed(1)` then `parseFloat`: round to one decimal, ties toward `+∞`. -/
def toFixed1 (q : ℚ) : ℚ := (jsRound (10 * q) : ℚ) / 10

/-- The whitespace class used by JavaScript `trim` and `\s` (the members
relevant to this data: space, tab, LF, CR, VT, FF, NBSP). -/
def isJsWs (c : Char) : Bool :=
  c = ' ' || c = '\t' || c = '\n' || c = '\r' ||
  c = '\x0b' || c = '\x0c' || c = ' '

def isDigitCh (c : Char) : Bool := '0' ≤ c && c ≤ '9'

def digitVal (c : Char) : Nat := c.toNat - '0'.toNat

/-- Value of a digit string, most significant first. -/
def digitsToNat (l : List Char) : Nat := l.foldl (fun a c => 10 * a + digitVal c) 0

/-- JavaScript `str.trim()`. -/
def jsTrim (l : List Char) : List Char :=
  ((l.dropWhile isJsWs).reverse.dropWhile isJsWs).reverse

def jsTrimStr (s : String) : String := String.mk (jsTrim s.data)

/-- `String.prototype.toLowerCase`, at the ASCII case mapping. -/
def toLowerL (l : List Char) : List Char := l.map Char.toLower

/-- `hay.includes(needle)`: some suffix of `hay` starts with `needle`. -/
def listIncludes (needle hay : List Char) : Bool :=
  hay.tails.any (fun t => needle.isPrefixOf t)

/-- Case-insensitive containment `hay.toLowerCase().includes(needle.toLowerCase())`. -/
def containsCI (hay needle : String) : Bool :=
  listIncludes (toLowerL needle.data) (toLowerL hay.data)

/-! ## Numeric Normalizer (`parseNumberSafe`, App.tsx lines 132-136) -/

/-- `str.replace(/,/g, '')`: delete every comma. -/
def stripCommas (s : String) : String := String.mk (s.data.filter (· ≠ ','))

/-- The exponent clause `[eE][+-]?digits` of a float literal; `0` when absent
or incomplete (then it is not part of the parsed prefix). -/
def floatExponent (l : List Char) : ℤ :=
  match l with
  | 'e' :: '-' :: r => -(digitsToNat (r.takeWhile isDigitCh) : ℤ)
  | 'E' :: '-' :: r => -(digitsToNat (r.takeWhile isDigitCh) : ℤ)
  | 'e' :: '+' :: r => (digitsToNat (r.takeWhile isDigitCh) : ℤ)
  | 'E' :: '+' :: r => (digitsToNat (r.takeWhile isDigitCh) : ℤ)
  | 'e' :: r => (digitsToNat (r.takeWhile isDigitCh) : ℤ)
  | 'E' :: r => (digitsToNat (r.takeWhile isDigitCh) : ℤ)
  | _ => 0

/-- Syntactic phase of `parseFloat`: skip leading whitespace, read an optional
sign, the integer digits, the optional fraction digits, and the exponent of
the longest literal prefix. Returns `(negative, intDigits, fracDigits, exp)`;
`none` when there is no digit at all (`NaN`). -/
def floatSyntax (s : String) : Option (Bool × List Char × List Char × ℤ) :=
  let l0 := s.data.dropWhile isJsWs
  let neg : Bool := l0.head? == some '-'
  let l1 : List Char :=
    if l0.head? = some '-' ∨ l0.head? = some '+' then l0.tail else l0
  let intPart := l1.takeWhile isDigitCh
  let l2 := l1.drop intPart.length
  let fracPart : List Char :=
    if l2.head? = some '.' then l2.tail.takeWhile isDigitCh else []
  let l3 : List Char :=
    if l2.head? = some '.' then l2.tail.drop fracPart.length else l2
  if intPart = [] ∧ fracPart = [] then none
  else some (neg, intPart, fracPart, floatExponent l3)

/-- Semantic phase: the rational value of the parsed components. -/
def floatValue : Bool × List Char × List Char × ℤ → ℚ
  | (neg, ip, fp, e) =>
      (if neg then -1 else 1) *
        ((digitsToNat ip : ℚ) + (digitsToNat fp : ℚ) / (10 : ℚ) ^ fp.length) *
        (10 : ℚ) ^ e

/-- JavaScript `parseFloat`; `none` models `NaN`. (`Infinity` literals and
exotic Unicode whitespace do not occur in this data and are not modelled.) -/
def jsParseFloat (s : String) : Option ℚ := (floatSyntax s).map floatValue

/-- `parseNumberSafe` (App.tsx 132-136): empty is 0; otherwise strip commas,
`parseFloat`, and coerce a `NaN` result to 0 (`|| 0`). -/
def parseNumberSafe (s : String) : ℚ :=
  if s = "" then 0
  else (jsParseFloat (stripCommas s)).getD 0

example : parseNumberSafe "1,894" = 1894 := by
  have h1 : stripCommas "1,894" = "1894" := by decide
  have h2 : floatSyntax "1894" = some (false, ['1', '8', '9', '4'], [], 0) := by decide
  have h3 : digitsToNat ['1', '8', '9', '4'] = 1894 := by decide
  have h4 : digitsToNat ([] : List Char) = 0 := by decide
  rw [parseNumberSafe, if_neg (by decide), h1, jsParseFloat, h2]
  norm_num [floatValue, h3, h4]

example : parseNumberSafe "abc" = 0 := by
  have h1 : stripCommas "abc" = "abc" := by decide
  have h2 : floatSyntax "abc" = none := by decide
  rw [parseNumberSafe, if_neg (by decide), h1, jsParseFloat, h2]
  rfl

/-! ## The instant model

A JavaScript `Date` is its time value, here in minutes since the epoch
1970-01-01T00:00. Civil-date conversions follow the proleptic Gregorian
calendar, which is what ECMA's `MakeDay` / `YearFromTime` / `MonthFromTime`
/ `DateFromTime` compute. -/

set_option maxRecDepth 8000

/-- Gregorian leap-year predicate. -/
def isLeapP (y : Int) : Prop := (y % 4 = 0 ∧ ¬ y % 100 = 0) ∨ y % 400 = 0

instance (y : Int) : Decidable (isLeapP y) := by unfold isLeapP; infer_instance

def daysInYear (y : Int) : Int := if isLeapP y then 366 else 365

/-- Length of month `m` (1..12) of year `y`. -/
def monthLen (y m : Int) : Int :=
  if m = 1 then 31 else if m = 2 then (if isLeapP y then 29 else 28)
  else if m = 3 then 31 else if m = 4 then 30 else if m = 5 then 31
  else if m = 6 then 30 else if m = 7 then 31 else if m = 8 then 31
  else if m = 9 then 30 else if m = 10 then 31 else if m = 11 then 30 else 31

/-- Days from 2000-01-01 to the start of relative year `n` (i.e. year
`2000 + n`): `365 n` plus the leap days among years `2000 .. 2000+n-1`. -/
def yearSumOf (n : Int) : Int :=
  365 * n + (n + 3) / 4 - (n + 99) / 100 + (n + 399) / 400

/-- Days from the start of year `y` to the start of month `n + 1`. -/
def monthSumAux (y : Int) : Nat → Int
  | 0 => 0
  | n + 1 => monthSumAux y n + monthLen y (n + 1)

def monthSumOf (y m : Int) : Int := monthSumAux y (m - 1).toNat

/-- Day count (days since 1970-01-01) of the civil date `(y, m, d)` with
`1 ≤ m ≤ 12`; `d` may lie outside its month, shifting the result linearly
(as in ECMA `MakeDay`). Years are reduced modulo the 400-year cycle of
146097 days anchored at 2000-01-01 = day 10957. -/
def daysFromCivil (y m d : Int) : Int :=
  146097 * ((y - 2000) / 400) + yearSumOf ((y - 2000) % 400)
    + monthSumOf y m + (d - 1) + 10957

/-- Walk at most `fuel` years starting at relative year `n` with `rem` days
remaining; stops at the year containing the day. -/
def splitYears (fuel : Nat) (n rem : Int) : Int × Int :=
  match fuel with
  | 0 => (n, rem)
  | fuel + 1 =>
      if rem < daysInYear (2000 + n) then (n, rem)
      else splitYears fuel (n + 1) (rem - daysInYear (2000 + n))

/-- Walk at most `fuel` months of year `y` starting at month `m`. -/
def splitMonths (fuel : Nat) (y m rem : Int) : Int × Int :=
  match fuel with
  | 0 => (m, rem)
  | fuel + 1 =>
      if rem < monthLen y m then (m, rem)
      else splitMonths fuel y (m + 1) (rem - monthLen y m)

/-- Civil date `(year, month 1..12, day 1..31)` of a day count. -/
def civilFromDays (z : Int) : Int × Int × Int :=
  let t := z - 10957
  let era := t / 146097
  let doe := t % 146097
  let p := splitYears 400 0 doe
  let y := 2000 + 400 * era + p.1
  let q := splitMonths 12 y 1 p.2
  (y, q.1, q.2 + 1)

/-- `new Date(y, m0, d, hh, mi)` (month `m0` 0-based), as ECMA `MakeDay` +
`MakeTime`: fields may overflow/underflow arbitrarily and are carried. -/
def mkDateRaw (y m0 d hh mi : Int) : Int :=
  (daysFromCivil (y + m0 / 12) (m0 % 12 + 1) 1 + (d - 1)) * 1440 + hh * 60 + mi

def getFullYear (t : Int) : Int := (civilFromDays (t / 1440)).1
/-- `getMonth()`: 0-based month. -/
def getMonth0 (t : Int) : Int := (civilFromDays (t / 1440)).2.1 - 1
def getDate (t : Int) : Int := (civilFromDays (t / 1440)).2.2
def getHours (t : Int) : Int := (t / 60) % 24
def getMinutes (t : Int) : Int := t % 60

/-- `d.setDate(n)`: rebuild the instant with day-of-month `n`, keeping the
year, month and time of day. -/
def setDate (t n : Int) : Int :=
  mkDateRaw (getFullYear t) (getMonth0 t) n (getHours t) (getMinutes t)

example : daysFromCivil 1970 1 1 = 0 := by decide
example : daysFromCivil 2000 1 1 = 10957 := by decide
example : daysFromCivil 1969 12 31 = -1 := by decide
example : daysFromCivil 2024 3 5 = 19787 := by decide
example : civilFromDays 19787 = (2024, 3, 5) := by decide
example : civilFromDays 0 = (1970, 1, 1) := by decide
example : civilFromDays (-1) = (1969, 12, 31) := by decide
example : civilFromDays 19788 = (2024, 3, 6) := by decide

theorem yearSumOf_succ (n : Int) :
    yearSumOf (n + 1) = yearSumOf n + daysInYear (2000 + n) := by
  unfold yearSumOf daysInYear isLeapP
  split
  · omega
  · omega

theorem monthSumOf_succ (y m : Int) (hm : 1 ≤ m) :
    monthSumOf y (m + 1) = monthSumOf y m + monthLen y m := by
  unfold monthSumOf
  have h1 : (m + 1 - 1).toNat = (m - 1).toNat + 1 := by omega
  rw [h1, show monthSumAux y ((m - 1).toNat + 1)
        = monthSumAux y (m - 1).toNat + monthLen y ((m - 1).toNat + 1) from rfl,
     show ((m - 1).toNat : Int) + 1 = m from by omega]

theorem monthSum_year (y : Int) : monthSumOf y 13 = daysInYear y := by
  by_cases h : isLeapP y <;>
    simp [monthSumOf, monthSumAux, monthLen, daysInYear, h]

/-- Invariant of the year walk. -/
theorem splitYears_spec (fuel : Nat) :
    ∀ n rem : Int, 0 ≤ n → 0 ≤ rem →
      rem + yearSumOf n < yearSumOf (n + fuel) →
      n ≤ (splitYears fuel n rem).1 ∧
        yearSumOf (splitYears fuel n rem).1 + (splitYears fuel n rem).2
          = yearSumOf n + rem ∧
        0 ≤ (splitYears fuel n rem).2 ∧
        (splitYears fuel n rem).2 < daysInYear (2000 + (splitYears fuel n rem).1) := by
  induction fuel with
  | zero =>
      intro n rem hn hrem hstop
      simp only [Nat.cast_zero, add_zero] at hstop
      omega
  | succ fuel ih =>
      intro n rem hn hrem hstop
      rw [splitYears]
      split
      · exact ⟨le_refl n, rfl, hrem, by assumption⟩
      · rename_i hge
        push_neg at hge
        have hstep := yearSumOf_succ n
        have hstop' : (rem - daysInYear (2000 + n)) + yearSumOf (n + 1) <
            yearSumOf ((n + 1) + fuel) := by
          have hc : (n + 1) + (fuel : Int) = n + ((fuel + 1 : Nat) : Int) := by
            push_cast; ring
          rw [hc]
          omega
        have h := ih (n + 1) (rem - daysInYear (2000 + n)) (by omega) (by omega) hstop'
        exact ⟨by omega, by omega, h.2.2.1, h.2.2.2⟩

/-- Invariant of the month walk. -/
theorem splitMonths_spec (fuel : Nat) :
    ∀ y m rem : Int, 1 ≤ m → 0 ≤ rem →
      rem + monthSumOf y m < monthSumOf y (m + fuel) →
      m ≤ (splitMonths fuel y m rem).1 ∧
        (splitMonths fuel y m rem).1 < m + fuel ∧
        monthSumOf y (splitMonths fuel y m rem).1 + (splitMonths fuel y m rem).2
          = monthSumOf y m + rem ∧
        0 ≤ (splitMonths fuel y m rem).2 ∧
        (splitMonths fuel y m rem).2 < monthLen y (splitMonths fuel y m rem).1 := by
  induction fuel with
  | zero =>
      intro y m rem hm hrem hstop
      simp only [Nat.cast_zero, add_zero] at hstop
      omega
  | succ fuel ih =>
      intro y m rem hm hrem hstop
      rw [splitMonths]
      split
      · exact ⟨le_refl m, by push_cast; omega, rfl, hrem, by assumption⟩
      · rename_i hge
        push_neg at hge
        have hstep := monthSumOf_succ y m hm
        have hstop' : (rem - monthLen y m) + monthSumOf y (m + 1) <
            monthSumOf y ((m + 1) + fuel) := by
          have hc : (m + 1) + (fuel : Int) = m + ((fuel + 1 : Nat) : Int) := by
            push_cast; ring
          rw [hc]
          omega
        have h := ih y (m + 1) (rem - monthLen y m) (by omega) (by omega) hstop'
        exact ⟨by omega, by push_cast at h ⊢; omega, by omega, h.2.2.2.1, h.2.2.2.2⟩

/-- Day-count / civil-date roundtrip (re-encoding the components produced by
`civilFromDays` yields the original day count), together with the component
bounds `1 ≤ month ≤ 12`. -/
theorem civilFromDays_spec (z : Int) :
    daysFromCivil (civilFromDays z).1 (civilFromDays z).2.1 (civilFromDays z).2.2 = z ∧
      1 ≤ (civilFromDays z).2.1 ∧ (civilFromDays z).2.1 ≤ 12 := by
  unfold civilFromDays
  dsimp only
  set t := z - 10957 with ht
  set era := t / 146097 with hera
  set doe := t % 146097 with hdoe
  have hdoe0 : 0 ≤ doe := Int.emod_nonneg t (by norm_num)
  have hdoe1 : doe < 146097 := Int.emod_lt_of_pos t (by norm_num)
  have hY := splitYears_spec 400 0 doe (le_refl 0) hdoe0
    (by unfold yearSumOf; push_cast; omega)
  set p := splitYears 400 0 doe with hp
  obtain ⟨hn0, hsum, hr0, hrD⟩ := hY
  have hsum0 : yearSumOf 0 = 0 := by decide
  have hn399 : p.1 ≤ 399 := by
    by_contra hgt
    push_neg at hgt
    have h1 : yearSumOf p.1 ≤ doe := by omega
    unfold yearSumOf at h1
    omega
  set y := 2000 + 400 * era + p.1 with hy
  have hDy : daysInYear y = daysInYear (2000 + p.1) := by
    unfold daysInYear
    have hiff : isLeapP y ↔ isLeapP (2000 + p.1) := by unfold isLeapP; omega
    by_cases h : isLeapP (2000 + p.1)
    · rw [if_pos (hiff.mpr h), if_pos h]
    · rw [if_neg (fun hc => h (hiff.mp hc)), if_neg h]
  have hM := splitMonths_spec 12 y 1 p.2 (le_refl 1) hr0
    (by
      have h13 : (1 : Int) + ((12 : Nat) : Int) = 13 := by norm_num
      rw [h13, monthSum_year, hDy]
      have hms1 : monthSumOf y 1 = 0 := by
        unfold monthSumOf
        norm_num
        rfl
      omega)
  set q := splitMonths 12 y 1 p.2 with hq
  obtain ⟨hm1, hm12, hmsum, hd0, hdM⟩ := hM
  have hms1 : monthSumOf y 1 = 0 := by
    unfold monthSumOf
    norm_num
    rfl
  unfold daysFromCivil
  have hdiv : (y - 2000) / 400 = era := by omega
  have hmod : (y - 2000) % 400 = p.1 := by omega
  rw [hdiv, hmod]
  have hta : t = era * 146097 + doe := by omega
  push_cast at hm12
  refine ⟨by omega, hm1, by omega⟩

theorem daysFromCivil_civilFromDays (z : Int) :
    daysFromCivil (civilFromDays z).1 (civilFromDays z).2.1 (civilFromDays z).2.2 = z :=
  (civilFromDays_spec z).1

theorem civilFromDays_bounds (z : Int) :
    1 ≤ (civilFromDays z).2.1 ∧ (civilFromDays z).2.1 ≤ 12 :=
  (civilFromDays_spec z).2

/-! ## Temporal Normalizer (`smartParseDate`, App.tsx lines 99-127) -/

theorem length_dropWhile_le (p : Char → Bool) (l : List Char) :
    (l.dropWhile p).length ≤ l.length := by
  induction l with
  | nil => simp [List.dropWhile]
  | cons a l ih =>
      by_cases h : p a <;> simp [List.dropWhile, h]
      omega

/-- The cleaning pass of `smartParseDate`: trim, delete the zero-width
characters U+200B..U+200D and U+FEFF, then map NBSP to a plain space. -/
def cleanChars (s : String) : List Char :=
  ((jsTrim s.data).filter
      (fun c => !(0x200B ≤ c.toNat && c.toNat ≤ 0x200D || c.toNat = 0xFEFF))).map
    (fun c => if c.toNat = 0xA0 then ' ' else c)

def cleanStrOf (s : String) : String := String.mk (cleanChars s)

/-- JavaScript split on a whitespace-run regex: tokens between maximal
whitespace runs, with an empty token at an end that touches a run. The flag
records being inside a run (whose token was already emitted). -/
def splitWsAux : List Char → Bool → List Char → List (List Char)
  | [], _, cur => [cur.reverse]
  | c :: rest, inRun, cur =>
      if isJsWs c then
        if inRun then splitWsAux rest true cur
        else cur.reverse :: splitWsAux rest true []
      else splitWsAux rest false (c :: cur)

def splitWs (l : List Char) : List (List Char) := splitWsAux l false []

/-- JavaScript `split(':')`. -/
def splitColon : List Char → List Char → List (List Char)
  | [], cur => [cur.reverse]
  | c :: rest, cur =>
      if c = ':' then cur.reverse :: splitColon rest []
      else splitColon rest (c :: cur)

/-- `Number(str)` restricted to the digit strings occurring in time fields:
`""` is 0, a digit run is its value, anything else is `NaN` (`none`). -/
def jsNumberInt (l : List Char) : Option Int :=
  if l = [] then some 0
  else if l.all isDigitCh then some (digitsToNat l) else none

/-- The date separator class: `-`, `/` or `.` . -/
def isSep (c : Char) : Bool := c = '-' || c = '/' || c = '.'

/-- Regex piece: one or two digits (greedy) followed by a date
separator; returns the value and the characters after the separator. -/
def num12Sep : List Char → Option (Nat × List Char)
  | x :: y :: z :: r =>
      if isDigitCh x then
        if isDigitCh y then
          if isSep z then some (10 * digitVal x + digitVal y, r) else none
        else if isSep y then some (digitVal x, z :: r) else none
      else none
  | [x, y] => if isDigitCh x && isSep y then some (digitVal x, []) else none
  | _ => none

/-- Trailing regex piece `(\d{1,2})`: one or two digits (greedy), trailing
text ignored. -/
def num12 : List Char → Option Nat
  | x :: y :: _ =>
      if isDigitCh x then
        some (if isDigitCh y then 10 * digitVal x + digitVal y else digitVal x)
      else none
  | [x] => if isDigitCh x then some (digitVal x) else none
  | [] => none

/-- Trailing regex piece `(\d{4})`: four digits, trailing text ignored. -/
def num4 : List Char → Option Nat
  | a :: b :: c :: d :: _ =>
      if isDigitCh a && isDigitCh b && isDigitCh c && isDigitCh d then
        some (digitsToNat [a, b, c, d])
      else none
  | _ => none

/-- The pattern `4 digits, separator, 1-2 digits, separator, 1-2 digits`:
year-first pattern, returning `(year, month, day)`. -/
def isoMatch : List Char → Option (Nat × Nat × Nat)
  | a :: b :: c :: d :: s :: r =>
      if isDigitCh a && isDigitCh b && isDigitCh c && isDigitCh d && isSep s then
        match num12Sep r with
        | some (m, r2) =>
            match num12 r2 with
            | some dd => some (digitsToNat [a, b, c, d], m, dd)
            | none => none
        | none => none
      else none
  | _ => none

/-- The pattern `1-2 digits, separator, 1-2 digits, separator, 4 digits`:
day-first pattern, returning `(day, month, year)`. -/
def dmyMatch (l : List Char) : Option (Nat × Nat × Nat) :=
  match num12Sep l with
  | some (d, r) =>
      match num12Sep r with
      | some (m, r2) => (num4 r2).map (fun y => (d, m, y))
      | none => none
  | none => none

/-- The date token: first whitespace-separated part of the cleaned text. -/
def datePartOf (s : String) : List Char := (splitWs (cleanChars s)).headD []

/-- The time token: second part when present, else `"00:00"`. -/
def timePartOf (s : String) : List Char :=
  let parts := splitWs (cleanChars s)
  if 1 < parts.length then parts.getD 1 [] else "00:00".data

/-- `const [hh, mm] = timePart.split(':').map(Number)` with the `|| 0`
coercions applied at use. -/
def hourMinOf (timePart : List Char) : Int × Int :=
  let tp := splitColon timePart []
  ((match tp.head? with
    | some t0 => (jsNumberInt t0).getD 0
    | none => 0),
   (match tp.get? 1 with
    | some t1 => (jsNumberInt t1).getD 0
    | none => 0))

/-- `8.64e15` milliseconds, in minutes: the valid `Date` range bound. -/
def jsTimeMax : Int := 144000000000

/-- `new Date(y, m0, d, hh, mi)` followed by the `isNaN(d.getTime())` check:
`none` when outside the representable range. -/
def mkDateChecked (y m0 d hh mi : Int) : Option Int :=
  let t := mkDateRaw y m0 d hh mi
  if t.natAbs ≤ 144000000000 then some t else none

/-- `smartParseDate` (App.tsx 99-127). The generic `new Date(string)`
fallback is the parameter `fb`, applied to the cleaned string. -/
def smartParseDate (fb : String → Option Int) (s : String) : Option Int :=
  if s = "" then none
  else
    let hm := hourMinOf (timePartOf s)
    match isoMatch (datePartOf s) with
    | some (y, m, d) => mkDateChecked (y : Int) ((m : Int) - 1) (d : Int) hm.1 hm.2
    | none =>
        match dmyMatch (datePartOf s) with
        | some (d, m, y) => mkDateChecked (y : Int) ((m : Int) - 1) (d : Int) hm.1 hm.2
        | none => fb (cleanStrOf s)

/-- The year-first attempt in isolation (`none` when the pattern does not
match or the date is invalid). -/
def isoAttempt (s : String) : Option Int :=
  match isoMatch (datePartOf s) with
  | some (y, m, d) =>
      mkDateChecked (y : Int) ((m : Int) - 1) (d : Int)
        (hourMinOf (timePartOf s)).1 (hourMinOf (timePartOf s)).2
  | none => none

/-- The day-first attempt in isolation. -/
def dmyAttempt (s : String) : Option Int :=
  match dmyMatch (datePartOf s) with
  | some (d, m, y) =>
      mkDateChecked (y : Int) ((m : Int) - 1) (d : Int)
        (hourMinOf (timePartOf s)).1 (hourMinOf (timePartOf s)).2
  | none => none

example : isoMatch ("2024-03-05".data) = some (2024, 3, 5) := by decide
example : dmyMatch ("05/03/2024".data) = some (5, 3, 2024) := by decide
example : isoMatch ("05/03/2024".data) = none := by decide
example : datePartOf "2024-03-05 14:30" = "2024-03-05".data := by decide
example : hourMinOf ("14:30".data) = (14, 30) := by decide

/-! ## Shift day (`formatDateToISO` / `getShiftDateString`, App.tsx 43-61) -/

/-- `String(n).padStart(2, '0')` for the 1- or 2-digit fields used here. -/
def pad2 (n : Int) : String := if n < 10 then "0" ++ toString n else toString n

/-- `formatDateToISO` (App.tsx 43-48): `YYYY-MM-DD` from local components. -/
def formatDateToISO (t : Int) : String :=
  toString (getFullYear t) ++ "-" ++ pad2 (getMonth0 t + 1) ++ "-" ++ pad2 (getDate t)

/-- `getShiftDateString` (App.tsx 53-61): if the local hour is before 07:00
the shift date is yesterday. -/
def getShiftDateString (t : Int) : String :=
  formatDateToISO (if getHours t < 7 then setDate t (getDate t - 1) else t)

/-- Modelled from the spec's words (§4.3): subtract one calendar day from the
instant exactly when the local hour is `< 7`, then format `YYYY-MM-DD` from
local date components. Subtracting one calendar day is subtracting 1440
minutes. -/
def shiftDateSpec (t : Int) : String :=
  formatDateToISO (if getHours t < 7 then t - 1440 else t)

theorem daysFromCivil_day_step (y m d : Int) :
    daysFromCivil y m d = daysFromCivil y m 1 + (d - 1) := by
  unfold daysFromCivil
  ring

/-- `d.setDate(d.getDate() - 1)` moves the instant back exactly one day. -/
theorem setDate_pred (t : Int) : setDate t (getDate t - 1) = t - 1440 := by
  unfold setDate mkDateRaw getFullYear getMonth0 getDate getHours getMinutes
  have hb := civilFromDays_bounds (t / 1440)
  have hrt := daysFromCivil_civilFromDays (t / 1440)
  set y := (civilFromDays (t / 1440)).1 with hy
  set m := (civilFromDays (t / 1440)).2.1 with hm
  set d := (civilFromDays (t / 1440)).2.2 with hd
  have e1 : y + (m - 1) / 12 = y := by omega
  have e2 : (m - 1) % 12 + 1 = m := by omega
  rw [e1, e2]
  have e3 := daysFromCivil_day_step y m d
  have e4 := daysFromCivil_day_step y m (d - 1 - 1 + 1)
  omega

/-- **C3.** For every instant, `getShiftDateString` returns the local calendar
date formatted `YYYY-MM-DD` from local date components, minus one calendar day
exactly when the local hour is < 7; in particular 2024-03-05T06:59 maps to
"2024-03-04" and 2024-03-05T07:00 maps to "2024-03-05". -/
theorem C3_shift_date_of :
    (∀ t : Int, getShiftDateString t = shiftDateSpec t) ∧
    getShiftDateString (mkDateRaw 2024 2 5 6 59) = "2024-03-04" ∧
    getShiftDateString (mkDateRaw 2024 2 5 7 0) = "2024-03-05" := by
  refine ⟨?_, by decide, by decide⟩
  intro t
  unfold getShiftDateString shiftDateSpec
  by_cases h : getHours t < 7
  · rw [if_pos h, if_pos h, setDate_pred]
  · rw [if_neg h, if_neg h]

/-! ## CSV Decoder (`robustParseCSV`, App.tsx lines 63-88)

The source scans left to right with an in-quotes flag and one character of
lookahead (doubled quotes inside quotes; CRLF outside). The model is the
equivalent single-character automaton: `qpend` is "inside quotes, just saw a
quote", `crpend` is "outside quotes, just ended a row on a carriage return". -/

inductive CsvSt | out | inq | qpend | crpend
deriving DecidableEq

def parseAux : CsvSt → List Char → List Char → List (List Char) →
    List (List (List Char)) → List (List (List Char))
  | _, [], col, row, acc =>
      if col = [] ∧ row = [] then acc else acc ++ [row ++ [col]]
  | .inq, c :: rest, col, row, acc =>
      if c = '"' then parseAux .qpend rest col row acc
      else parseAux .inq rest (col ++ [c]) row acc
  | .qpend, c :: rest, col, row, acc =>
      if c = '"' then parseAux .inq rest (col ++ ['"']) row acc
      else if c = ',' then parseAux .out rest [] (row ++ [col]) acc
      else if c = '\n' then parseAux .out rest [] [] (acc ++ [row ++ [col]])
      else if c = '\r' then parseAux .crpend rest [] [] (acc ++ [row ++ [col]])
      else parseAux .out rest (col ++ [c]) row acc
  | .crpend, c :: rest, col, row, acc =>
      if c = '\n' then parseAux .out rest col row acc
      else if c = '"' then parseAux .inq rest col row acc
      else if c = ',' then parseAux .out rest [] (row ++ [col]) acc
      else if c = '\r' then parseAux .crpend rest [] [] (acc ++ [row ++ [col]])
      else parseAux .out rest (col ++ [c]) row acc
  | .out, c :: rest, col, row, acc =>
      if c = '"' then parseAux .inq rest col row acc
      else if c = ',' then parseAux .out rest [] (row ++ [col]) acc
      else if c = '\n' then parseAux .out rest [] [] (acc ++ [row ++ [col]])
      else if c = '\r' then parseAux .crpend rest [] [] (acc ++ [row ++ [col]])
      else parseAux .out rest (col ++ [c]) row acc

/-- `robustParseCSV` (App.tsx 63-88). -/
def robustParseCSV (s : String) : List (List String) :=
  (parseAux .out s.data [] [] []).map (fun row => row.map (fun c => String.mk c))

example : robustParseCSV "a,b\nc,d" = [["a", "b"], ["c", "d"]] := by decide
example : robustParseCSV "a,b\nc,d\n" = [["a", "b"], ["c", "d"]] := by decide
example : robustParseCSV "a\r\nb" = [["a"], ["b"]] := by decide
example : robustParseCSV "a\r\rb" = [["a"], [""], ["b"]] := by decide
example : robustParseCSV "\"a,\"\"b\"\"\",c" = [["a,\"b\"", "c"]] := by decide
example : robustParseCSV "\"x\ny\",z" = [["x\ny", "z"]] := by decide
example : robustParseCSV "" = [] := by decide
example : robustParseCSV ",a" = [["", "a"]] := by decide

/-! Encoding with the standard CSV convention, for the round-trip property. -/

def isCsvSpecial (c : Char) : Bool := c = ',' || c = '"' || c = '\n' || c = '\r'

/-- Double every quote character. -/
def escQuotes : List Char → List Char
  | [] => []
  | c :: r => if c = '"' then '"' :: '"' :: escQuotes r else c :: escQuotes r

/-- Quote a cell when it holds a comma, quote, or line break. -/
def encodeCell (c : List Char) : List Char :=
  if c.any isCsvSpecial then '"' :: (escQuotes c ++ ['"']) else c

def encodeRow : List (List Char) → List Char
  | [] => []
  | [c] => encodeCell c
  | c :: cs => encodeCell c ++ ',' :: encodeRow cs

def encodeRowsWith (term : List Char) : List (List (List Char)) → List Char
  | [] => []
  | r :: rs => encodeRow r ++ term ++ encodeRowsWith term rs

/-- Standard CSV encoding, rows terminated by `\n`. -/
def encodeCSV (rows : List (List String)) : String :=
  String.mk (encodeRowsWith ['\n'] (rows.map (fun r => r.map String.data)))

/-- Standard CSV encoding, rows terminated by `\r\n`. -/
def encodeCSVCRLF (rows : List (List String)) : String :=
  String.mk (encodeRowsWith ['\r', '\n'] (rows.map (fun r => r.map String.data)))

example : encodeCSV [["a,b", "c"]] = "\"a,b\",c\n" := by decide


/-- An unquoted run of plain characters accumulates into the current cell. -/
theorem parseAux_run (c : List Char) : ∀ rest col row acc,
    (∀ ch ∈ c, isCsvSpecial ch = false) →
    parseAux .out (c ++ rest) col row acc = parseAux .out rest (col ++ c) row acc := by
  induction c with
  | nil => intro rest col row acc _; simp
  | cons ch c' ih =>
      intro rest col row acc h
      have hch := h ch (List.mem_cons_self ch c')
      have h1 : ¬ ch = '"' := by intro he; subst he; simp [isCsvSpecial] at hch
      have h2 : ¬ ch = ',' := by intro he; subst he; simp [isCsvSpecial] at hch
      have h3 : ¬ ch = '\n' := by intro he; subst he; simp [isCsvSpecial] at hch
      have h4 : ¬ ch = '\r' := by intro he; subst he; simp [isCsvSpecial] at hch
      show parseAux .out (ch :: (c' ++ rest)) col row acc = _
      rw [show parseAux .out (ch :: (c' ++ rest)) col row acc
            = if ch = '"' then parseAux .inq (c' ++ rest) col row acc
              else if ch = ',' then parseAux .out (c' ++ rest) [] (row ++ [col]) acc
              else if ch = '\n' then
                parseAux .out (c' ++ rest) [] [] (acc ++ [row ++ [col]])
              else if ch = '\r' then
                parseAux .crpend (c' ++ rest) [] [] (acc ++ [row ++ [col]])
              else parseAux .out (c' ++ rest) (col ++ [ch]) row acc from rfl]
      rw [if_neg h1, if_neg h2, if_neg h3, if_neg h4]
      rw [ih rest (col ++ [ch]) row acc (fun x hx => h x (List.mem_cons_of_mem ch hx))]
      simp

/-- Escaped quoted content accumulates into the current cell; the closing
quote leaves the `qpend` state. -/
theorem parseAux_quoted (s : List Char) : ∀ rest col row acc,
    parseAux .inq (escQuotes s ++ '"' :: rest) col row acc
      = parseAux .qpend rest (col ++ s) row acc := by
  induction s with
  | nil =>
      intro rest col row acc
      show parseAux .inq ('"' :: rest) col row acc = _
      rw [show parseAux .inq ('"' :: rest) col row acc
            = parseAux .qpend rest col row acc from rfl]
      simp
  | cons ch s' ih =>
      intro rest col row acc
      by_cases hq : ch = '"'
      · subst hq
        show parseAux .inq ('"' :: ('"' :: (escQuotes s' ++ '"' :: rest))) col row acc = _
        rw [show parseAux .inq ('"' :: ('"' :: (escQuotes s' ++ '"' :: rest))) col row acc
              = parseAux .inq (escQuotes s' ++ '"' :: rest) (col ++ ['"']) row acc from rfl]
        rw [ih rest (col ++ ['"']) row acc]
        simp
      · rw [show escQuotes (ch :: s') = ch :: escQuotes s' from by
              rw [escQuotes, if_neg hq]]
        show parseAux .inq (ch :: (escQuotes s' ++ '"' :: rest)) col row acc = _
        rw [show parseAux .inq (ch :: (escQuotes s' ++ '"' :: rest)) col row acc
              = if ch = '"' then parseAux .qpend (escQuotes s' ++ '"' :: rest) col row acc
                else parseAux .inq (escQuotes s' ++ '"' :: rest) (col ++ [ch]) row acc
              from rfl]
        rw [if_neg hq, ih rest (col ++ [ch]) row acc]
        simp

/-- On any character other than a quote, `qpend` behaves like `out`. -/
theorem qpend_step_eq_out (c : Char) (hc : ¬ c = '"') (rest : List Char)
    (col : List Char) (row : List (List Char)) (acc : List (List (List Char))) :
    parseAux .qpend (c :: rest) col row acc = parseAux .out (c :: rest) col row acc := by
  rw [show parseAux .qpend (c :: rest) col row acc
        = if c = '"' then parseAux .inq rest (col ++ ['"']) row acc
          else if c = ',' then parseAux .out rest [] (row ++ [col]) acc
          else if c = '\n' then parseAux .out rest [] [] (acc ++ [row ++ [col]])
          else if c = '\r' then parseAux .crpend rest [] [] (acc ++ [row ++ [col]])
          else parseAux .out rest (col ++ [c]) row acc from rfl]
  rw [show parseAux .out (c :: rest) col row acc
        = if c = '"' then parseAux .inq rest col row acc
          else if c = ',' then parseAux .out rest [] (row ++ [col]) acc
          else if c = '\n' then parseAux .out rest [] [] (acc ++ [row ++ [col]])
          else if c = '\r' then parseAux .crpend rest [] [] (acc ++ [row ++ [col]])
          else parseAux .out rest (col ++ [c]) row acc from rfl]
  rw [if_neg hc, if_neg hc]

/-- An encoded cell, followed by a non-quote character, accumulates exactly
the cell into the current column. -/
theorem parseAux_cell (cell : List Char) (t : Char) (ht : ¬ t = '"') :
    ∀ rest row acc,
      parseAux .out (encodeCell cell ++ t :: rest) [] row acc
        = parseAux .out (t :: rest) cell row acc := by
  intro rest row acc
  unfold encodeCell
  by_cases hq : cell.any isCsvSpecial
  · rw [if_pos hq]
    rw [show ('"' :: (escQuotes cell ++ ['"'])) ++ t :: rest
          = '"' :: (escQuotes cell ++ '"' :: (t :: rest)) by simp]
    rw [show parseAux .out ('"' :: (escQuotes cell ++ '"' :: (t :: rest))) [] row acc
          = parseAux .inq (escQuotes cell ++ '"' :: (t :: rest)) [] row acc from rfl]
    rw [parseAux_quoted cell (t :: rest) [] row acc, qpend_step_eq_out t ht]
    simp
  · rw [if_neg hq]
    have hall : ∀ ch ∈ cell, isCsvSpecial ch = false := by
      intro ch hch
      by_contra hcon
      exact hq (List.any_eq_true.2 ⟨ch, hch, by simpa using hcon⟩)
    rw [parseAux_run cell (t :: rest) [] row acc hall]
    simp

/-- An encoded row followed by `\n` appends the row and resets the state. -/
theorem parseAux_row_lf (r : List (List Char)) : r ≠ [] → ∀ rest row acc,
    parseAux .out (encodeRow r ++ '\n' :: rest) [] row acc
      = parseAux .out rest [] [] (acc ++ [row ++ r]) := by
  induction r with
  | nil => intro h; exact absurd rfl h
  | cons c cs ih =>
      intro _ rest row acc
      cases cs with
      | nil =>
          show parseAux .out (encodeCell c ++ '\n' :: rest) [] row acc = _
          rw [parseAux_cell c '\n' (by decide)]
          rfl
      | cons c2 cs2 =>
          show parseAux .out ((encodeCell c ++ ',' :: encodeRow (c2 :: cs2)) ++ '\n' :: rest)
              [] row acc = _
          rw [List.append_assoc, List.cons_append, parseAux_cell c ',' (by decide)]
          rw [show parseAux .out (',' :: (encodeRow (c2 :: cs2) ++ '\n' :: rest)) c row acc
                = parseAux .out (encodeRow (c2 :: cs2) ++ '\n' :: rest) [] (row ++ [c]) acc
                from rfl]
          rw [ih (by simp) rest (row ++ [c]) acc]
          simp

/-- An encoded row followed by `\r` appends the row and enters `crpend`. -/
theorem parseAux_row_cr (r : List (List Char)) : r ≠ [] → ∀ rest row acc,
    parseAux .out (encodeRow r ++ '\r' :: rest) [] row acc
      = parseAux .crpend rest [] [] (acc ++ [row ++ r]) := by
  induction r with
  | nil => intro h; exact absurd rfl h
  | cons c cs ih =>
      intro _ rest row acc
      cases cs with
      | nil =>
          show parseAux .out (encodeCell c ++ '\r' :: rest) [] row acc = _
          rw [parseAux_cell c '\r' (by decide)]
          rfl
      | cons c2 cs2 =>
          show parseAux .out ((encodeCell c ++ ',' :: encodeRow (c2 :: cs2)) ++ '\r' :: rest)
              [] row acc = _
          rw [List.append_assoc, List.cons_append, parseAux_cell c ',' (by decide)]
          rw [show parseAux .out (',' :: (encodeRow (c2 :: cs2) ++ '\r' :: rest)) c row acc
                = parseAux .out (encodeRow (c2 :: cs2) ++ '\r' :: rest) [] (row ++ [c]) acc
                from rfl]
          rw [ih (by simp) rest (row ++ [c]) acc]
          simp

theorem parseAux_rows_lf (rows : List (List (List Char)))
    (h : ∀ r ∈ rows, r ≠ []) : ∀ acc,
    parseAux .out (encodeRowsWith ['\n'] rows) [] [] acc = acc ++ rows := by
  induction rows with
  | nil => intro acc; simp [encodeRowsWith, parseAux]
  | cons r rs ih =>
      intro acc
      show parseAux .out (encodeRow r ++ ['\n'] ++ encodeRowsWith ['\n'] rs) [] [] acc = _
      rw [List.append_assoc]
      rw [show (['\n'] ++ encodeRowsWith ['\n'] rs : List Char)
            = '\n' :: encodeRowsWith ['\n'] rs from rfl]
      rw [parseAux_row_lf r (h r (List.mem_cons_self r rs)) _ [] acc]
      rw [ih (fun x hx => h x (List.mem_cons_of_mem r hx))]
      simp

theorem parseAux_rows_crlf (rows : List (List (List Char)))
    (h : ∀ r ∈ rows, r ≠ []) : ∀ acc,
    parseAux .out (encodeRowsWith ['\r', '\n'] rows) [] [] acc = acc ++ rows := by
  induction rows with
  | nil => intro acc; simp [encodeRowsWith, parseAux]
  | cons r rs ih =>
      intro acc
      show parseAux .out (encodeRow r ++ ['\r', '\n'] ++ encodeRowsWith ['\r', '\n'] rs)
          [] [] acc = _
      rw [List.append_assoc]
      rw [show (['\r', '\n'] ++ encodeRowsWith ['\r', '\n'] rs : List Char)
            = '\r' :: ('\n' :: encodeRowsWith ['\r', '\n'] rs) from rfl]
      rw [parseAux_row_cr r (h r (List.mem_cons_self r rs)) _ [] acc]
      rw [show parseAux .crpend ('\n' :: encodeRowsWith ['\r', '\n'] rs) [] []
              (acc ++ [[] ++ r])
            = parseAux .out (encodeRowsWith ['\r', '\n'] rs) [] [] (acc ++ [[] ++ r])
            from rfl]
      rw [ih (fun x hx => h x (List.mem_cons_of_mem r hx))]
      simp

theorem string_mk_data (s : String) : String.mk s.data = s := by cases s; rfl

/-- **C8.** Encoding any list of (nonempty) rows of cells with the standard
CSV convention — comma separator, newline row terminator, quoting cells
holding commas, quotes or line breaks, doubling embedded quotes — and then
decoding with `robustParseCSV` returns exactly the original cells; with CRLF
row terminators the CR-LF pair is consumed as a single row terminator and
the result is the same. -/
theorem C8_csv_roundtrip (rows : List (List String)) (h : ∀ r ∈ rows, r ≠ []) :
    robustParseCSV (encodeCSV rows) = rows ∧
    robustParseCSV (encodeCSVCRLF rows) = rows := by
  have h' : ∀ cr ∈ rows.map (fun r => r.map String.data), cr ≠ [] := by
    intro cr hcr
    rw [List.mem_map] at hcr
    obtain ⟨r, hr, hrr⟩ := hcr
    subst hrr
    simpa using h r hr
  have hback : (rows.map (fun r => r.map String.data)).map
      (fun row => row.map (fun c => String.mk c)) = rows := by
    rw [List.map_map]
    have hF : ((fun (row : List (List Char)) => row.map (fun c => String.mk c)) ∘
        (fun (r : List String) => r.map String.data))
        = fun (r : List String) => r := by
      funext r
      show (r.map String.data).map (fun c => String.mk c) = r
      rw [List.map_map,
         show ((fun c => String.mk c) ∘ String.data) = fun s : String => s from
           funext (fun s => string_mk_data s)]
      exact List.map_id r
    rw [hF]
    exact List.map_id rows
  constructor
  · show (parseAux .out (encodeCSV rows).data [] [] []).map _ = rows
    rw [show (encodeCSV rows).data
          = encodeRowsWith ['\n'] (rows.map (fun r => r.map String.data)) from rfl]
    rw [parseAux_rows_lf _ h' []]
    simpa using hback
  · show (parseAux .out (encodeCSVCRLF rows).data [] [] []).map _ = rows
    rw [show (encodeCSVCRLF rows).data
          = encodeRowsWith ['\r', '\n'] (rows.map (fun r => r.map String.data)) from rfl]
    rw [parseAux_rows_crlf _ h' []]
    simpa using hback

/-- Witness for C8 at a concrete table with embedded comma, quote and
newline. -/
theorem C8_csv_roundtrip_witness :
    (∀ r ∈ [["a,b", "c\"d"], ["x\ny", ""]], r ≠ ([] : List String)) ∧
    robustParseCSV (encodeCSV [["a,b", "c\"d"], ["x\ny", ""]])
      = [["a,b", "c\"d"], ["x\ny", ""]] ∧
    robustParseCSV (encodeCSVCRLF [["a,b", "c\"d"], ["x\ny", ""]])
      = [["a,b", "c\"d"], ["x\ny", ""]] :=
  ⟨by decide,
   (C8_csv_roundtrip [["a,b", "c\"d"], ["x\ny", ""]] (by decide)).1,
   (C8_csv_roundtrip [["a,b", "c\"d"], ["x\ny", ""]] (by decide)).2⟩

/-! ## Column Resolver and Record Builder (`findColIdx` / `fetchCSV`,
App.tsx lines 90-92 and 341-371) -/

structure TruckData where
  truckNo : String
  matName : String
  arrivalTime : String
  endTime : String
  totalTime : ℚ
  weight : ℚ
  mxStock : ℚ
  whStock : ℚ
deriving DecidableEq

/-- `findColIdx` (App.tsx 90-92): first header containing (case-insensitively)
any keyword; `none` models the `-1` of `findIndex`. -/
def findColIdx (headers keywords : List String) : Option Nat :=
  headers.findIdx? (fun h => keywords.any (fun k => containsCI h k))

/-- The resolved column indices of `fetchCSV` (App.tsx 349-356). -/
structure ColIdx where
  truck : Option Nat
  mat : Option Nat
  arrival : Option Nat
  endCol : Option Nat
  totalTime : Option Nat
  weight : Option Nat

/-- `c[i]`, where a missing column or a short row yields the empty string
(JavaScript `undefined` is falsy exactly like `""` at every use site). -/
def cellVal (c : List String) : Option Nat → String
  | some i => (c.get? i).getD ""
  | none => ""

/-- `a || d` on strings: the default replaces the empty string. -/
def jsOr (s d : String) : String := if s = "" then d else s

def headerIdxOf (headers : List String) : ColIdx :=
  { truck := findColIdx headers ["車號", "車牌", "Truck"]
    mat := findColIdx headers ["原材料", "品名", "Material"]
    arrival := findColIdx headers ["進場", "Arrival"]
    endCol := findColIdx headers ["結束", "作業完成", "End"]
    totalTime := findColIdx headers ["作業總時間", "總時間", "Duration", "Total Time"]
    weight := findColIdx headers ["重量", "Weight", "(t)"] }

/-- One record of the `allRows.slice(1).map(...)` of `fetchCSV`
(App.tsx 357-365). -/
def buildRow (idx : ColIdx) (c : List String) : TruckData :=
  { truckNo := jsOr (cellVal c idx.truck) "N/A"
    matName := jsOr (cellVal c idx.mat) "N/A"
    arrivalTime := cellVal c idx.arrival
    endTime := cellVal c idx.endCol
    totalTime := parseNumberSafe (cellVal c idx.totalTime)
    weight := parseNumberSafe (cellVal c idx.weight)
    mxStock := 0
    whStock := 0 }

/-- The trimmed header row. -/
def headersOf (text : String) : List String :=
  ((robustParseCSV text).headD []).map jsTrimStr

/-- The record set built by `fetchCSV` from a CSV text (App.tsx 346-366):
nothing when there is at most a header row; otherwise each data row is built
and the `filter(x => !!x.matName)` pass is applied. -/
def buildFromCSV (text : String) : List TruckData :=
  if (robustParseCSV text).length ≤ 1 then []
  else
    (((robustParseCSV text).drop 1).map (buildRow (headerIdxOf (headersOf text)))).filter
      (fun x => x.matName != "")

example : (buildFromCSV "Material,Weight\n,7").map (fun x => x.matName) = ["N/A"] := by
  decide

/-- `jsOr` with default `"N/A"` never yields the empty string. -/
theorem jsOr_na_ne_empty (s : String) : jsOr s "N/A" ≠ "" := by
  unfold jsOr
  split
  · decide
  · assumption

/-- **C1 counterexample.** The CSV text `"Material,Weight\n,7"` has exactly
one data row, whose resolved material cell is the empty string; yet the
Record Builder keeps the row (as material `"N/A"`) instead of dropping it. -/
theorem C1_cex_empty_material_kept :
    (robustParseCSV "Material,Weight\n,7").drop 1 = [["", "7"]] ∧
    (buildFromCSV "Material,Weight\n,7").map (fun x => x.matName) = ["N/A"] ∧
    (buildFromCSV "Material,Weight\n,7").length = 1 := by
  refine ⟨by decide, by decide, by decide⟩

/-- **C1 (amended).** The Record Builder drops no row at all: every built
event has a non-empty `matName` (rows with an empty or missing material cell
get the default `"N/A"`), and whenever the CSV has more than one row the
record count equals the data-row count. -/
theorem C1_amended_no_row_dropped (text : String) :
    (∀ ev ∈ buildFromCSV text, ev.matName ≠ "") ∧
    (1 < (robustParseCSV text).length →
      (buildFromCSV text).length = (robustParseCSV text).length - 1) := by
  constructor
  · intro ev hev
    unfold buildFromCSV at hev
    split at hev
    · simp at hev
    · have := (List.mem_filter.1 hev).2
      simpa using this
  · intro hlen
    unfold buildFromCSV
    rw [if_neg (by omega)]
    rw [List.filter_eq_self.2]
    · simp
    · intro ev hev
      rw [List.mem_map] at hev
      obtain ⟨c, _, hc⟩ := hev
      subst hc
      have : (buildRow (headerIdxOf (headersOf text)) c).matName ≠ "" :=
        jsOr_na_ne_empty _
      simpa using this

theorem C1_amended_witness :
    (1 < (robustParseCSV "Material,Weight\n,7").length) ∧
    (buildFromCSV "Material,Weight\n,7").length
      = (robustParseCSV "Material,Weight\n,7").length - 1 :=
  ⟨by decide, (C1_amended_no_row_dropped "Material,Weight\n,7").2 (by decide)⟩

/-- **C10.** An unresolved material column, or an empty material cell, makes
the Record Builder substitute the literal `"N/A"` (the same default as for
`truckNo`); such rows are never filtered out, so the whole data-row list is
retained by the pipeline. -/
theorem C10_material_na_default (idx : ColIdx) (c : List String)
    (rows : List (List String)) (text : String) :
    ((idx.mat = none ∨ cellVal c idx.mat = "") → (buildRow idx c).matName = "N/A") ∧
    ((idx.truck = none ∨ cellVal c idx.truck = "") → (buildRow idx c).truckNo = "N/A") ∧
    ((rows.map (buildRow idx)).filter (fun x => x.matName != "") = rows.map (buildRow idx)) ∧
    (1 < (robustParseCSV text).length →
      buildFromCSV text
        = ((robustParseCSV text).drop 1).map (buildRow (headerIdxOf (headersOf text)))) := by
  refine ⟨?_, ?_, ?_, ?_⟩
  · intro h
    show jsOr (cellVal c idx.mat) "N/A" = "N/A"
    rcases h with h | h
    · rw [h]; rfl
    · rw [h]; rfl
  · intro h
    show jsOr (cellVal c idx.truck) "N/A" = "N/A"
    rcases h with h | h
    · rw [h]; rfl
    · rw [h]; rfl
  · rw [List.filter_eq_self.2]
    intro ev hev
    rw [List.mem_map] at hev
    obtain ⟨r, _, hr⟩ := hev
    subst hr
    simpa using jsOr_na_ne_empty (cellVal r idx.mat)
  · intro hlen
    unfold buildFromCSV
    rw [if_neg (by omega)]
    rw [List.filter_eq_self.2]
    intro ev hev
    rw [List.mem_map] at hev
    obtain ⟨r, _, hr⟩ := hev
    subst hr
    simpa using jsOr_na_ne_empty (cellVal r (headerIdxOf (headersOf text)).mat)

theorem C10_material_na_default_witness :
    ((headerIdxOf []).mat = none ∨ cellVal ["x"] (headerIdxOf []).mat = "") ∧
    (buildRow (headerIdxOf []) ["x"]).matName = "N/A" ∧
    (1 < (robustParseCSV "Material,Weight\n,7").length) ∧
    buildFromCSV "Material,Weight\n,7"
      = ((robustParseCSV "Material,Weight\n,7").drop 1).map
          (buildRow (headerIdxOf (headersOf "Material,Weight\n,7"))) :=
  ⟨Or.inl (by decide),
   (C10_material_na_default (headerIdxOf []) ["x"] [] "").1 (Or.inl (by decide)),
   by decide,
   (C10_material_na_default (headerIdxOf []) ["x"] [] "Material,Weight\n,7").2.2.2
     (by decide)⟩

theorem mem_of_mem_dropWhile {a : Char} {p : Char → Bool} :
    ∀ {l : List Char}, a ∈ l.dropWhile p → a ∈ l := by
  intro l
  induction l with
  | nil => intro h; simp at h
  | cons c r ih =>
      intro h
      by_cases hc : p c
      · simp only [List.dropWhile, hc] at h
        exact List.mem_cons_of_mem c (ih h)
      · simp only [List.dropWhile, hc] at h
        exact h

/-- The sign flag read by the float scanner. -/
def floatNeg (s : String) : Bool := (s.data.dropWhile isJsWs).head? == some '-'

theorem floatSyntax_some_neg (s : String) (v : Bool × List Char × List Char × ℤ)
    (h : floatSyntax s = some v) : v.1 = floatNeg s := by
  unfold floatSyntax at h
  dsimp only at h
  repeat' split at h
  all_goals
    first
      | exact Option.noConfusion h
      | (injection h with h'; rw [← h'])
  all_goals rfl

theorem floatNeg_false_of_no_minus (s : String) (h : '-' ∉ s.data) :
    floatNeg s = false := by
  unfold floatNeg
  rw [beq_eq_false_iff_ne]
  intro hhead
  apply h
  apply mem_of_mem_dropWhile (p := isJsWs)
  cases hl : s.data.dropWhile isJsWs with
  | nil => rw [hl] at hhead; simp at hhead
  | cons c r =>
      rw [hl] at hhead
      simp only [List.head?_cons, Option.some.injEq] at hhead
      rw [hhead] at hl ⊢
      simp

/-- A numeric cell that contains no minus sign never parses negative. -/
theorem parseNumberSafe_nonneg (s : String) (h : '-' ∉ s.data) :
    0 ≤ parseNumberSafe s := by
  unfold parseNumberSafe
  split
  · norm_num
  · have hsub : '-' ∉ (stripCommas s).data := by
      intro hm
      exact h (List.mem_of_mem_filter hm)
    cases hfs : floatSyntax (stripCommas s) with
    | none => simp [jsParseFloat, hfs]
    | some v =>
        obtain ⟨neg, ip, fp, e⟩ := v
        have hval : (jsParseFloat (stripCommas s)).getD 0 = floatValue (neg, ip, fp, e) := by
          simp [jsParseFloat, hfs]
        rw [hval]
        have hneg : neg = false := by
          have h1 := floatSyntax_some_neg (stripCommas s) _ hfs
          rw [floatNeg_false_of_no_minus _ hsub] at h1
          exact h1
        subst hneg
        show (0 : ℚ) ≤ (if (false : Bool) then -1 else 1) *
            ((digitsToNat ip : ℚ) + (digitsToNat fp : ℚ) / (10 : ℚ) ^ fp.length) *
            (10 : ℚ) ^ (e : ℤ)
        rw [if_neg (by simp)]
        positivity

/-- **C2 counterexample.** The CSV text `"Material,Weight\nsand,-5"` builds
one event whose weight is `parseNumberSafe "-5" = -5 < 0`: the non-negativity
claimed for every row of every input CSV fails. -/
theorem C2_cex_negative_weight :
    (buildFromCSV "Material,Weight\nsand,-5").map (fun x => x.weight)
      = [parseNumberSafe "-5"] ∧
    parseNumberSafe "-5" = -5 ∧ ¬ (0 : ℚ) ≤ (-5 : ℚ) := by
  refine ⟨rfl, ?_, by norm_num⟩
  have h1 : stripCommas "-5" = "-5" := by decide
  have h2 : floatSyntax "-5" = some (true, ['5'], [], 0) := by decide
  have h3 : digitsToNat ['5'] = 5 := by decide
  have h4 : digitsToNat ([] : List Char) = 0 := by decide
  rw [parseNumberSafe, if_neg (by decide), h1, jsParseFloat, h2]
  norm_num [floatValue, h3, h4]

/-- **C2 (amended).** Every built event's `totalTime` and `weight` are the
`parseNumberSafe` values of the row's resolved cells; an unparsed or absent
cell yields exactly 0, and the value is non-negative whenever the cell text
holds no minus sign (it can be negative when it does, as the counterexample
shows). -/
theorem C2_amended_parsed_values :
    (∀ s : String, jsParseFloat (stripCommas s) = none → parseNumberSafe s = 0) ∧
    parseNumberSafe "" = 0 ∧
    (∀ s : String, '-' ∉ s.data → 0 ≤ parseNumberSafe s) ∧
    (∀ text : String, ∀ ev ∈ buildFromCSV text,
      ∃ c : List String,
        ev.totalTime = parseNumberSafe (cellVal c (headerIdxOf (headersOf text)).totalTime) ∧
        ev.weight = parseNumberSafe (cellVal c (headerIdxOf (headersOf text)).weight)) := by
  refine ⟨?_, rfl, parseNumberSafe_nonneg, ?_⟩
  · intro s h
    unfold parseNumberSafe
    split
    · rfl
    · rw [h]; rfl
  · intro text ev hev
    unfold buildFromCSV at hev
    split at hev
    · simp at hev
    · obtain ⟨c, _, hc⟩ := List.mem_map.1 (List.mem_of_mem_filter hev)
      exact ⟨c, by rw [← hc]; rfl, by rw [← hc]; rfl⟩

theorem C2_amended_witness :
    ('-' ∉ ("12.5" : String).data) ∧ (0 : ℚ) ≤ parseNumberSafe "12.5" ∧
    jsParseFloat (stripCommas "zz") = none ∧ parseNumberSafe "zz" = 0 :=
  ⟨by decide, C2_amended_parsed_values.2.2.1 "12.5" (by decide), by decide,
   C2_amended_parsed_values.1 "zz" (by decide)⟩

/-- **C9.** `parseNumberSafe` strips thousands-separator commas and parses the
remainder as a float, returning 0 — never failing, never `NaN` — for empty or
invalid input; `parseNumberSafe "1,894" = 1894`, `parseNumberSafe "" = 0`,
`parseNumberSafe "abc" = 0`, and for every string the result is the parsed
value of the comma-stripped text, or 0 when that parse fails. -/
theorem C9_parse_number_safe :
    parseNumberSafe "1,894" = 1894 ∧ parseNumberSafe "" = 0 ∧ parseNumberSafe "abc" = 0 ∧
    (∀ s : String, jsParseFloat (stripCommas s) = none → parseNumberSafe s = 0) ∧
    (∀ (s : String) (q : ℚ), s ≠ "" → jsParseFloat (stripCommas s) = some q →
      parseNumberSafe s = q) := by
  refine ⟨?_, rfl, ?_, ?_, ?_⟩
  · have h1 : stripCommas "1,894" = "1894" := by decide
    have h2 : floatSyntax "1894" = some (false, ['1', '8', '9', '4'], [], 0) := by decide
    have h3 : digitsToNat ['1', '8', '9', '4'] = 1894 := by decide
    have h4 : digitsToNat ([] : List Char) = 0 := by decide
    rw [parseNumberSafe, if_neg (by decide), h1, jsParseFloat, h2]
    norm_num [floatValue, h3, h4]
  · have h1 : stripCommas "abc" = "abc" := by decide
    have h2 : floatSyntax "abc" = none := by decide
    rw [parseNumberSafe, if_neg (by decide), h1, jsParseFloat, h2]
    rfl
  · intro s h
    unfold parseNumberSafe
    split
    · rfl
    · rw [h]; rfl
  · intro s q hs h
    unfold parseNumberSafe
    rw [if_neg hs, h]
    rfl

theorem C9_parse_number_safe_witness :
    jsParseFloat (stripCommas "@@") = none ∧ parseNumberSafe "@@" = 0 :=
  ⟨by decide, C9_parse_number_safe.2.2.2.1 "@@" (by decide)⟩

/-! ## Aggregation Engine: filtering (`filteredData`, App.tsx lines 380-392) -/

structure FilterState where
  startDate : String
  endDate : String
  material : String

/-- `filteredData` (App.tsx 380-392): empty when either range date fails to
parse; otherwise keep records whose parsed arrival lies in
`[07:00 startDate, 07:00 day-after-endDate)` and that pass the
case-insensitive material-substring filter (empty filter passes all). -/
def filteredData (fb : String → Option Int) (rawData : List TruckData)
    (filters : FilterState) : List TruckData :=
  match smartParseDate fb filters.startDate, smartParseDate fb filters.endDate with
  | some s, some e =>
      rawData.filter (fun r =>
        match smartParseDate fb r.arrivalTime with
        | some d =>
            decide (mkDateRaw (getFullYear s) (getMonth0 s) (getDate s) 7 0 ≤ d) &&
            decide (d < mkDateRaw (getFullYear e) (getMonth0 e) (getDate e + 1) 7 0) &&
            (filters.material == "" || containsCI r.matName filters.material)
        | none => false)
  | _, _ => []

/-- **C5.** When both range dates parse, a record is in the filtered set iff
its arrival text parses to an instant `d` with
`07:00 on startDate ≤ d < 07:00 on the day after endDate` and the material
filter is empty or case-insensitively contained in the record's material;
records with unparseable arrival text are excluded. -/
theorem C5_filtered_data (fb : String → Option Int) (raw : List TruckData)
    (filters : FilterState) (s e : Int)
    (hs : smartParseDate fb filters.startDate = some s)
    (he : smartParseDate fb filters.endDate = some e) (r : TruckData) :
    r ∈ filteredData fb raw filters ↔
      r ∈ raw ∧ ∃ d : Int, smartParseDate fb r.arrivalTime = some d ∧
        mkDateRaw (getFullYear s) (getMonth0 s) (getDate s) 7 0 ≤ d ∧
        d < mkDateRaw (getFullYear e) (getMonth0 e) (getDate e + 1) 7 0 ∧
        (filters.material = "" ∨ containsCI r.matName filters.material = true) := by
  unfold filteredData
  simp only [hs, he]
  rw [List.mem_filter]
  constructor
  · rintro ⟨hmem, hcond⟩
    refine ⟨hmem, ?_⟩
    cases hd : smartParseDate fb r.arrivalTime with
    | none => rw [hd] at hcond; simp at hcond
    | some d =>
        rw [hd] at hcond
        simp only [Bool.and_eq_true, Bool.or_eq_true, decide_eq_true_eq,
          beq_iff_eq] at hcond
        exact ⟨d, rfl, hcond.1.1, hcond.1.2, hcond.2⟩
  · rintro ⟨hmem, d, hd, h1, h2, h3⟩
    refine ⟨hmem, ?_⟩
    rw [hd]
    simp only [Bool.and_eq_true, Bool.or_eq_true, decide_eq_true_eq, beq_iff_eq]
    exact ⟨⟨h1, h2⟩, h3⟩

theorem C5_filtered_data_witness :
    smartParseDate (fun _ => none) "2024-01-09" = some (mkDateRaw 2024 0 9 0 0) ∧
    smartParseDate (fun _ => none) "2024-01-10" = some (mkDateRaw 2024 0 10 0 0) ∧
    (⟨"T1", "sand", "2024-01-10 08:00", "", 30, 1000, 0, 0⟩ : TruckData) ∈
      filteredData (fun _ => none)
        [⟨"T1", "sand", "2024-01-10 08:00", "", 30, 1000, 0, 0⟩]
        ⟨"2024-01-09", "2024-01-10", ""⟩ :=
  ⟨by decide, by decide,
   (C5_filtered_data (fun _ => none)
      [⟨"T1", "sand", "2024-01-10 08:00", "", 30, 1000, 0, 0⟩]
      ⟨"2024-01-09", "2024-01-10", ""⟩
      (mkDateRaw 2024 0 9 0 0) (mkDateRaw 2024 0 10 0 0)
      (by decide) (by decide) _).mpr
     ⟨List.mem_singleton.mpr rfl, mkDateRaw 2024 0 10 8 0, by decide, by decide,
      by decide, Or.inl rfl⟩⟩

/-! ## Aggregation Engine: pareto (`paretoData`, App.tsx lines 430-438) -/

/-- `stats[mat] = (stats[mat] || 0) + w` on an insertion-ordered record. -/
def accumStats : List (String × ℚ) → String → ℚ → List (String × ℚ)
  | [], mat, w => [(mat, w)]
  | (n, t) :: r, mat, w =>
      if n = mat then (n, t + w) :: r else (n, t) :: accumStats r mat w

/-- Per-material tonnage sums (`weight / 1000`), in first-encounter order. -/
def statsOf (l : List TruckData) : List (String × ℚ) :=
  l.foldl (fun acc r => accumStats acc r.matName (r.weight / 1000)) []

/-- Stable insertion into a sorted list: `a` goes before the first `b` with
`le a b` (JavaScript's stable `sort`). -/
def stInsert (le : (String × ℚ) → (String × ℚ) → Bool) (a : String × ℚ) :
    List (String × ℚ) → List (String × ℚ)
  | [] => [a]
  | b :: l => if le a b then a :: b :: l else b :: stInsert le a l

/-- Stable sort by `le` (the result every stable sort produces). -/
def stSort (le : (String × ℚ) → (String × ℚ) → Bool)
    (l : List (String × ℚ)) : List (String × ℚ) := l.foldr (stInsert le) []

/-- The comparator `(a, b) => b[1] - a[1]` keeps `a` before `b` iff
`b.2 ≤ a.2`. -/
def tonsDesc (a b : String × ℚ) : Bool := decide (b.2 ≤ a.2)

/-- Sort descending by tonnage (stable), take the top 10, round each
tonnage to one decimal (`toFixed(1)` + `parseFloat`). -/
def paretoSorted (l : List TruckData) : List (String × ℚ) :=
  ((stSort tonsDesc (statsOf l)).take 10).map (fun p => (p.1, toFixed1 p.2))

/-- `sorted.reduce((a, b) => a + b.tons, 0)`. -/
def top10TotalOf (l : List TruckData) : ℚ :=
  (paretoSorted l).foldl (fun a b => a + b.2) 0

structure ParetoItem where
  name : String
  tons : ℚ
  percentage : ℤ
deriving DecidableEq

/-- The running-cumulative pass (`acc += i.tons; Math.round(acc/total*100)`,
0 when the total is not positive). -/
def cumItems (total : ℚ) : ℚ → List (String × ℚ) → List ParetoItem
  | _, [] => []
  | acc, (n, t) :: r =>
      { name := n, tons := t,
        percentage := if 0 < total then jsRound ((acc + t) / total * 100) else 0 }
        :: cumItems total (acc + t) r

/-- `paretoData.items` (App.tsx 430-438). -/
def paretoItems (l : List TruckData) : List ParetoItem :=
  cumItems (top10TotalOf l) 0 (paretoSorted l)

/-- The spec-side running sums of a tonnage list. -/
def prefixSums : ℚ → List ℚ → List ℚ
  | _, [] => []
  | a, t :: r => (a + t) :: prefixSums (a + t) r

theorem cumItems_length (total : ℚ) : ∀ (a : ℚ) (lst : List (String × ℚ)),
    (cumItems total a lst).length = lst.length := by
  intro a lst
  induction lst generalizing a with
  | nil => rfl
  | cons p r ih => obtain ⟨n, t⟩ := p; simp [cumItems, ih]

theorem cumItems_tons (total : ℚ) : ∀ (a : ℚ) (lst : List (String × ℚ)),
    (cumItems total a lst).map (fun it => it.tons) = lst.map Prod.snd := by
  intro a lst
  induction lst generalizing a with
  | nil => rfl
  | cons p r ih => obtain ⟨n, t⟩ := p; simp [cumItems, ih]

theorem cumItems_percentages (total : ℚ) : ∀ (a : ℚ) (lst : List (String × ℚ)),
    (cumItems total a lst).map (fun it => it.percentage)
      = (prefixSums a (lst.map Prod.snd)).map
          (fun c => if 0 < total then jsRound (c / total * 100) else 0) := by
  intro a lst
  induction lst generalizing a with
  | nil => rfl
  | cons p r ih => obtain ⟨n, t⟩ := p; simp [cumItems, prefixSums, ih]

theorem stInsert_mem (le : (String × ℚ) → (String × ℚ) → Bool) (a x : String × ℚ) :
    ∀ l, x ∈ stInsert le a l → x = a ∨ x ∈ l := by
  intro l
  induction l with
  | nil => intro h; simpa [stInsert] using h
  | cons b r ih =>
      intro h
      unfold stInsert at h
      split at h
      · rcases List.mem_cons.1 h with h' | h'
        · exact Or.inl h'
        · exact Or.inr h'
      · rcases List.mem_cons.1 h with h' | h'
        · exact Or.inr (by simp [h'])
        · rcases ih h' with h'' | h''
          · exact Or.inl h''
          · exact Or.inr (List.mem_cons_of_mem b h'')

theorem stSort_mem (le : (String × ℚ) → (String × ℚ) → Bool) (x : String × ℚ) :
    ∀ l, x ∈ stSort le l → x ∈ l := by
  intro l
  induction l with
  | nil => intro h; simpa [stSort] using h
  | cons b r ih =>
      intro h
      rcases stInsert_mem le b x _ h with h' | h'
      · simp [h']
      · exact List.mem_cons_of_mem b (ih h')

theorem stInsert_sorted (a : String × ℚ) :
    ∀ l, List.Pairwise (fun x y => y.2 ≤ x.2) l →
      List.Pairwise (fun x y => y.2 ≤ x.2) (stInsert tonsDesc a l) := by
  intro l
  induction l with
  | nil => intro _; simp [stInsert]
  | cons b r ih =>
      intro hp
      unfold stInsert
      split
      · rename_i hab
        have hab' : b.2 ≤ a.2 := by
          simpa [tonsDesc] using hab
        refine List.Pairwise.cons ?_ hp
        intro y hy
        rcases List.mem_cons.1 hy with hy' | hy'
        · rw [hy']; exact hab'
        · exact le_trans ((List.pairwise_cons.1 hp).1 y hy') hab'
      · rename_i hab
        have hab' : a.2 < b.2 := by
          simp only [tonsDesc, decide_eq_true_eq] at hab
          exact lt_of_not_le hab
        rw [List.pairwise_cons] at hp
        refine List.Pairwise.cons ?_ (ih hp.2)
        intro y hy
        rcases stInsert_mem tonsDesc a y r hy with h' | h'
        · rw [h']; exact le_of_lt hab'
        · exact hp.1 y h'

theorem stSort_sorted : ∀ l, List.Pairwise (fun x y => y.2 ≤ x.2) (stSort tonsDesc l) := by
  intro l
  induction l with
  | nil => simp [stSort]
  | cons b r ih => exact stInsert_sorted b _ ih

theorem jsRound_mono {a b : ℚ} (h : a ≤ b) : jsRound a ≤ jsRound b :=
  Int.floor_le_floor (by linarith)

theorem toFixed1_mono {a b : ℚ} (h : a ≤ b) : toFixed1 a ≤ toFixed1 b := by
  unfold toFixed1
  have h1 : jsRound (10 * a) ≤ jsRound (10 * b) := jsRound_mono (by linarith)
  have h2 : ((jsRound (10 * a) : ℚ)) ≤ ((jsRound (10 * b) : ℚ)) := by exact_mod_cast h1
  linarith

theorem toFixed1_zero : toFixed1 0 = 0 := by
  unfold toFixed1 jsRound
  norm_num

theorem toFixed1_nonneg {a : ℚ} (h : 0 ≤ a) : 0 ≤ toFixed1 a := by
  have := toFixed1_mono h
  rw [toFixed1_zero] at this
  exact this

theorem accumStats_nonneg (mat : String) (w : ℚ) (hw : 0 ≤ w) :
    ∀ acc, (∀ p ∈ acc, 0 ≤ p.2) → ∀ p ∈ accumStats acc mat w, 0 ≤ p.2 := by
  intro acc
  induction acc with
  | nil =>
      intro _ p hp
      simp only [accumStats, List.mem_singleton] at hp
      rw [hp]
      exact hw
  | cons q r ih =>
      obtain ⟨n, t⟩ := q
      intro hacc p hp
      unfold accumStats at hp
      split at hp
      · rcases List.mem_cons.1 hp with h' | h'
        · rw [h']
          have := hacc (n, t) (List.mem_cons_self _ _)
          simp only at this
          simp only
          linarith
        · exact hacc p (List.mem_cons_of_mem _ h')
      · rcases List.mem_cons.1 hp with h' | h'
        · rw [h']; exact hacc (n, t) (List.mem_cons_self _ _)
        · exact ih (fun q hq => hacc q (List.mem_cons_of_mem _ hq)) p h'

theorem statsOf_nonneg (l : List TruckData) (h : ∀ ev ∈ l, 0 ≤ ev.weight) :
    ∀ p ∈ statsOf l, 0 ≤ p.2 := by
  unfold statsOf
  have hgen : ∀ (lst : List TruckData), (∀ ev ∈ lst, 0 ≤ ev.weight) →
      ∀ (acc : List (String × ℚ)), (∀ p ∈ acc, 0 ≤ p.2) →
      ∀ p ∈ lst.foldl (fun acc r => accumStats acc r.matName (r.weight / 1000)) acc,
        0 ≤ p.2 := by
    intro lst
    induction lst with
    | nil => intro _ acc hacc p hp; exact hacc p hp
    | cons ev rest ih =>
        intro hl acc hacc p hp
        refine ih (fun x hx => hl x (List.mem_cons_of_mem _ hx)) _ ?_ p hp
        exact accumStats_nonneg ev.matName (ev.weight / 1000)
          (by
            have := hl ev (List.mem_cons_self _ _)
            positivity) acc hacc
  exact hgen l h [] (by simp)

theorem paretoSorted_nonneg (l : List TruckData) (h : ∀ ev ∈ l, 0 ≤ ev.weight) :
    ∀ p ∈ paretoSorted l, 0 ≤ p.2 := by
  intro p hp
  unfold paretoSorted at hp
  obtain ⟨q, hq, hpq⟩ := List.mem_map.1 hp
  have hq' : q ∈ stSort tonsDesc (statsOf l) := List.take_subset 10 _ hq
  have hq'' : q ∈ statsOf l := stSort_mem tonsDesc q _ hq'
  rw [← hpq]
  exact toFixed1_nonneg (statsOf_nonneg l h q hq'')

theorem paretoSorted_sorted (l : List TruckData) :
    List.Pairwise (fun x y : String × ℚ => y.2 ≤ x.2) (paretoSorted l) := by
  unfold paretoSorted
  rw [List.pairwise_map]
  have h1 : List.Pairwise (fun x y : String × ℚ => y.2 ≤ x.2)
      ((stSort tonsDesc (statsOf l)).take 10) :=
    (stSort_sorted (statsOf l)).sublist (List.take_sublist 10 _)
  exact h1.imp (fun hxy => toFixed1_mono hxy)

theorem cumItems_mem_tons (total : ℚ) : ∀ (a : ℚ) (lst : List (String × ℚ))
    (it : ParetoItem), it ∈ cumItems total a lst → ∃ p ∈ lst, it.tons = p.2 := by
  intro a lst
  induction lst generalizing a with
  | nil => intro it h; simp [cumItems] at h
  | cons q r ih =>
      obtain ⟨n, t⟩ := q
      intro it h
      rcases List.mem_cons.1 h with h' | h'
      · exact ⟨(n, t), List.mem_cons_self _ _, by rw [h']⟩
      · obtain ⟨p, hp, hpt⟩ := ih (a + t) it h'
        exact ⟨p, List.mem_cons_of_mem _ hp, hpt⟩

theorem cumItems_pairwise_tons (total : ℚ) : ∀ (a : ℚ) (lst : List (String × ℚ)),
    List.Pairwise (fun x y : String × ℚ => y.2 ≤ x.2) lst →
    List.Pairwise (fun x y : ParetoItem => y.tons ≤ x.tons) (cumItems total a lst) := by
  intro a lst
  induction lst generalizing a with
  | nil => intro _; simp [cumItems]
  | cons q r ih =>
      obtain ⟨n, t⟩ := q
      intro hp
      rw [List.pairwise_cons] at hp
      refine List.Pairwise.cons ?_ (ih (a + t) hp.2)
      intro it hit
      obtain ⟨p, hpmem, hpt⟩ := cumItems_mem_tons total (a + t) r it hit
      show it.tons ≤ t
      rw [hpt]
      exact hp.1 p hpmem

theorem cumItems_chain (total : ℚ) : ∀ (a : ℚ) (lst : List (String × ℚ)),
    (∀ p ∈ lst, 0 ≤ p.2) →
    List.Chain' (· ≤ ·) ((cumItems total a lst).map (fun it => it.percentage)) := by
  intro a lst
  induction lst generalizing a with
  | nil => intro _; simp [cumItems]
  | cons q r ih =>
      obtain ⟨n, t⟩ := q
      intro hpos
      show List.Chain' (· ≤ ·)
        ((if 0 < total then jsRound ((a + t) / total * 100) else 0)
          :: (cumItems total (a + t) r).map (fun it => it.percentage))
      rw [List.chain'_cons']
      refine ⟨?_, ih (a + t) (fun p hp => hpos p (List.mem_cons_of_mem _ hp))⟩
      intro y hy
      cases r with
      | nil => simp [cumItems] at hy
      | cons q2 r2 =>
          obtain ⟨n2, t2⟩ := q2
          have hy' : y = (if 0 < total then jsRound ((a + t + t2) / total * 100) else 0) := by
            simp only [cumItems, List.map_cons, List.head?_cons, Option.mem_def,
              Option.some.injEq] at hy
            exact hy.symm
          rw [hy']
          by_cases htot : 0 < total
          · rw [if_pos htot, if_pos htot]
            apply jsRound_mono
            have ht2 : 0 ≤ t2 := hpos (n2, t2) (List.mem_cons_of_mem _ (List.mem_cons_self _ _))
            have hd : (a + t) / total ≤ (a + t + t2) / total :=
              (div_le_div_right htot).2 (by linarith)
            exact mul_le_mul_of_nonneg_right hd (by norm_num)
          · rw [if_neg htot, if_neg htot]

theorem cumItems_last (total : ℚ) : ∀ (a : ℚ) (lst : List (String × ℚ)), lst ≠ [] →
    ((cumItems total a lst).map (fun it => it.percentage)).getLast?
      = some (if 0 < total then jsRound ((a + (lst.map Prod.snd).sum) / total * 100)
              else 0) := by
  intro a lst
  induction lst generalizing a with
  | nil => intro h; exact absurd rfl h
  | cons q r ih =>
      obtain ⟨n, t⟩ := q
      intro _
      cases r with
      | nil => simp [cumItems]
      | cons q2 r2 =>
          have hne : (cumItems total (a + t) (q2 :: r2)).map (fun it => it.percentage)
              ≠ [] := by
            obtain ⟨n2, t2⟩ := q2
            simp [cumItems]
          show ((if 0 < total then jsRound ((a + t) / total * 100) else 0)
              :: (cumItems total (a + t) (q2 :: r2)).map (fun it => it.percentage)).getLast?
            = _
          have hstep : ∀ (x : ℤ) (ll : List ℤ), ll ≠ [] →
              (x :: ll).getLast? = ll.getLast? := by
            intro x ll hll
            cases ll with
            | nil => exact absurd rfl hll
            | cons y ys => exact List.getLast?_cons_cons
          rw [hstep _ _ hne]
          rw [ih (a + t) (by simp)]
          have harith : a + t + ((q2 :: r2).map Prod.snd).sum
              = a + (((n, t) :: q2 :: r2).map Prod.snd).sum := by
            simp
            ring
          rw [harith]

theorem foldl_add_snd (l : List (String × ℚ)) : ∀ a : ℚ,
    l.foldl (fun x p => x + p.2) a = a + (l.map Prod.snd).sum := by
  induction l with
  | nil => intro a; simp
  | cons p r ih =>
      intro a
      simp only [List.foldl_cons, List.map_cons, List.sum_cons, ih (a + p.2)]
      ring

/-- **C6 (amended).** The pareto list has at most 10 entries, is sorted
descending by tonnage, and each entry's cumulative percentage is
`round(runningTonnage / top10Total * 100)` (0 when the total is not
positive); when every event weight is non-negative (the intended data) the
percentages are monotonically non-decreasing, and whenever `top10Total > 0`
the final percentage is exactly 100. With a negative weight in the filtered
set, monotonicity fails (see the counterexample). -/
theorem C6_pareto_amended (l : List TruckData) :
    (paretoItems l).length ≤ 10 ∧
    List.Pairwise (fun a b : ParetoItem => b.tons ≤ a.tons) (paretoItems l) ∧
    ((paretoItems l).map (fun it => it.percentage)
      = (prefixSums 0 ((paretoSorted l).map Prod.snd)).map
          (fun c => if 0 < top10TotalOf l then jsRound (c / top10TotalOf l * 100)
                    else 0)) ∧
    ((∀ ev ∈ l, 0 ≤ ev.weight) →
      List.Chain' (· ≤ ·) ((paretoItems l).map (fun it => it.percentage))) ∧
    (0 < top10TotalOf l →
      ((paretoItems l).map (fun it => it.percentage)).getLast? = some 100) := by
  refine ⟨?_, ?_, ?_, ?_, ?_⟩
  · unfold paretoItems
    rw [cumItems_length]
    unfold paretoSorted
    simp only [List.length_map]
    exact le_trans (List.length_take_le 10 _) (le_refl 10)
  · exact cumItems_pairwise_tons _ 0 _ (paretoSorted_sorted l)
  · exact cumItems_percentages _ 0 _
  · intro h
    exact cumItems_chain _ 0 _ (paretoSorted_nonneg l h)
  · intro htot
    have hne : paretoSorted l ≠ [] := by
      intro hnil
      unfold top10TotalOf at htot
      rw [hnil] at htot
      simp at htot
    unfold paretoItems
    rw [cumItems_last _ 0 _ hne]
    have hsum : (paretoSorted l |>.map Prod.snd).sum = top10TotalOf l := by
      unfold top10TotalOf
      rw [foldl_add_snd]
      ring
    rw [if_pos htot]
    congr 1
    rw [zero_add, hsum, div_self (ne_of_gt htot)]
    show jsRound ((1 : ℚ) * 100) = 100
    unfold jsRound
    norm_num

/-- A two-event set with one negative weight, reachable from the pipeline. -/
def paretoCexEvents : List TruckData :=
  [⟨"T1", "A", "2024-01-10 08:00", "", 0, 10000, 0, 0⟩,
   ⟨"T2", "B", "2024-01-10 09:00", "", 0, -5000, 0, 0⟩]

/-- **C6 counterexample.** `paretoCexEvents` is itself a filtered set (it
passes a wide filter unchanged), and on it the cumulative percentages are
`[200, 100]`: the sequence is not monotonically non-decreasing, refuting the
claim for arbitrary filtered sets. -/
theorem C6_cex_percentage_not_monotone :
    filteredData (fun _ => none) paretoCexEvents ⟨"2024-01-01", "2024-12-31", ""⟩
      = paretoCexEvents ∧
    (paretoItems paretoCexEvents).map (fun it => it.percentage) = [200, 100] ∧
    ¬ List.Chain' (· ≤ ·) ((paretoItems paretoCexEvents).map (fun it => it.percentage)) := by
  have h1 : statsOf paretoCexEvents = [("A", 10), ("B", -5)] := by
    show accumStats (accumStats [] "A" ((10000 : ℚ) / 1000)) "B" ((-5000 : ℚ) / 1000) = _
    rw [show accumStats [] "A" ((10000 : ℚ) / 1000) = [("A", (10000 : ℚ) / 1000)] from rfl]
    rw [show accumStats [("A", (10000 : ℚ) / 1000)] "B" ((-5000 : ℚ) / 1000)
          = [("A", (10000 : ℚ) / 1000), ("B", (-5000 : ℚ) / 1000)] from by
        unfold accumStats
        rw [if_neg (by decide : ¬ "A" = "B")]
        rfl]
    norm_num
  have hcmp : tonsDesc ("A", (10 : ℚ)) ("B", (-5 : ℚ)) = true := by
    simp only [tonsDesc, decide_eq_true_eq]
    norm_num
  have h2 : paretoSorted paretoCexEvents = [("A", 10), ("B", -5)] := by
    unfold paretoSorted
    rw [h1]
    simp only [stSort, List.foldr, stInsert, hcmp, if_true]
    norm_num [toFixed1, jsRound]
  have h3 : top10TotalOf paretoCexEvents = 5 := by
    unfold top10TotalOf
    rw [h2]
    norm_num
  have h4 : (paretoItems paretoCexEvents).map (fun it => it.percentage) = [200, 100] := by
    unfold paretoItems
    rw [h2, h3]
    norm_num [cumItems, jsRound]
  refine ⟨by decide, h4, ?_⟩
  rw [h4]
  intro hch
  rw [List.chain'_cons] at hch
  have := hch.1
  omega

theorem C6_pareto_amended_witness :
    (∀ ev ∈ [(⟨"T1", "A", "", "", 0, 1000, 0, 0⟩ : TruckData)], 0 ≤ ev.weight) ∧
    List.Chain' (· ≤ ·)
      ((paretoItems [(⟨"T1", "A", "", "", 0, 1000, 0, 0⟩ : TruckData)]).map
        (fun it => it.percentage)) ∧
    0 < top10TotalOf [(⟨"T1", "A", "", "", 0, 1000, 0, 0⟩ : TruckData)] ∧
    ((paretoItems [(⟨"T1", "A", "", "", 0, 1000, 0, 0⟩ : TruckData)]).map
        (fun it => it.percentage)).getLast? = some 100 := by
  have hw : ∀ ev ∈ [(⟨"T1", "A", "", "", 0, 1000, 0, 0⟩ : TruckData)], 0 ≤ ev.weight := by
    intro ev hev
    rw [List.mem_singleton] at hev
    subst hev
    norm_num
  have htot : 0 < top10TotalOf [(⟨"T1", "A", "", "", 0, 1000, 0, 0⟩ : TruckData)] := by
    have h1 : statsOf [(⟨"T1", "A", "", "", 0, 1000, 0, 0⟩ : TruckData)] = [("A", 1)] := by
      show accumStats [] "A" ((1000 : ℚ) / 1000) = _
      norm_num [accumStats]
    unfold top10TotalOf paretoSorted
    rw [h1]
    rw [show stSort tonsDesc [("A", (1 : ℚ))] = [("A", (1 : ℚ))] from rfl]
    show (0 : ℚ) < 0 + toFixed1 1
    norm_num [toFixed1, jsRound]
  exact ⟨hw,
    (C6_pareto_amended [(⟨"T1", "A", "", "", 0, 1000, 0, 0⟩ : TruckData)]).2.2.2.1 hw,
    htot,
    (C6_pareto_amended [(⟨"T1", "A", "", "", 0, 1000, 0, 0⟩ : TruckData)]).2.2.2.2 htot⟩

/-! ## Aggregation Engine: live monitor (`todayMonitor`, App.tsx lines 455-475) -/

structure MonitorItem where
  data : TruckData
  rate : ℤ
deriving DecidableEq

structure MonitorResult where
  items : List MonitorItem
  avgRate : ℤ
deriving DecidableEq

/-- `(smartParseDate(x)?.getTime() || 0)`, the sort key. -/
def timeOf (fb : String → Option Int) (ev : TruckData) : Int :=
  (smartParseDate fb ev.arrivalTime).getD 0

def stInsertT (le : TruckData → TruckData → Bool) (a : TruckData) :
    List TruckData → List TruckData
  | [] => [a]
  | b :: l => if le a b then a :: b :: l else b :: stInsertT le a l

/-- Stable sort of records (JavaScript's stable `Array.sort`). -/
def stSortT (le : TruckData → TruckData → Bool) (l : List TruckData) : List TruckData :=
  l.foldr (stInsertT le) []

/-- The per-event on-time rate: 100 unless `totalTime > 0`, then
`min(100, round(benchmark / totalTime * 100))`. -/
def rateOf (bench tt : ℚ) : ℤ :=
  if 0 < tt then min 100 (jsRound (bench / tt * 100)) else 100

/-- `todayMonitor` (App.tsx 455-475). -/
def todayMonitor (fb : String → Option Int) (raw : List TruckData)
    (monitorDate : String) (bench : ℚ) : MonitorResult :=
  match smartParseDate fb monitorDate with
  | none => ⟨[], 0⟩
  | some base =>
      let s := mkDateRaw (getFullYear base) (getMonth0 base) (getDate base) 7 0
      let e := setDate s (getDate s + 1)
      let items := stSortT (fun a b => decide (timeOf fb b ≤ timeOf fb a))
        (raw.filter (fun r =>
          match smartParseDate fb r.arrivalTime with
          | some d => decide (s ≤ d) && decide (d < e)
          | none => false))
      if items = [] then ⟨[], 0⟩
      else
        let iwr := items.map (fun it => (⟨it, rateOf bench it.totalTime⟩ : MonitorItem))
        ⟨iwr,
         if 0 < iwr.length then
           jsRound (((iwr.foldl (fun acc cur => acc + cur.rate) 0 : ℤ) : ℚ)
             / (items.length : ℚ))
         else 0⟩

theorem foldl_add_rate (l : List MonitorItem) : ∀ a : ℤ,
    l.foldl (fun acc cur => acc + cur.rate) a = a + (l.map (fun it => it.rate)).sum := by
  induction l with
  | nil => intro a; simp
  | cons p r ih =>
      intro a
      simp only [List.foldl_cons, List.map_cons, List.sum_cons, ih (a + p.rate)]
      ring

/-- **C7.** Every monitor item's rate is
`min(100, round(benchmark / duration * 100))` when the duration is positive
and exactly 100 when it is zero, hence never exceeds 100; the view's average
is the unweighted rounded mean of the per-item rates, and 0 when no event
matches the monitored shift day. -/
theorem C7_today_monitor (fb : String → Option Int) (raw : List TruckData)
    (md : String) (bench : ℚ) :
    (∀ it ∈ (todayMonitor fb raw md bench).items,
      it.rate = (if 0 < it.data.totalTime
                 then min 100 (jsRound (bench / it.data.totalTime * 100)) else 100) ∧
      it.rate ≤ 100 ∧ (it.data.totalTime = 0 → it.rate = 100)) ∧
    ((todayMonitor fb raw md bench).items = [] →
      (todayMonitor fb raw md bench).avgRate = 0) ∧
    ((todayMonitor fb raw md bench).items ≠ [] →
      (todayMonitor fb raw md bench).avgRate
        = jsRound ((((todayMonitor fb raw md bench).items.map
              (fun it => it.rate)).sum : ℚ)
            / ((todayMonitor fb raw md bench).items.length : ℚ))) := by
  unfold todayMonitor
  cases hbase : smartParseDate fb md with
  | none =>
      refine ⟨?_, ?_, ?_⟩
      · intro it hit; simp at hit
      · intro _; rfl
      · intro h; exact absurd rfl h
  | some base =>
      dsimp only
      split
      · refine ⟨?_, ?_, ?_⟩
        · intro it hit; simp at hit
        · intro _; rfl
        · intro h; exact absurd rfl h
      · rename_i hne
        refine ⟨?_, ?_, ?_⟩
        · intro it hit
          simp only [List.mem_map] at hit
          obtain ⟨x, hx, hxit⟩ := hit
          subst hxit
          refine ⟨rfl, ?_, ?_⟩
          · show rateOf bench x.totalTime ≤ 100
            unfold rateOf
            split
            · exact min_le_left _ _
            · exact le_refl 100
          · intro h0
            show rateOf bench x.totalTime = 100
            unfold rateOf
            rw [if_neg (by rw [h0]; exact lt_irrefl 0)]
        · intro h
          exfalso
          rw [List.map_eq_nil] at h
          exact hne h
        · intro _
          dsimp only
          rw [if_pos]
          · rw [foldl_add_rate, List.length_map, zero_add, Int.cast_list_sum,
               List.map_map]
            rfl
          · rw [List.length_map]
            exact List.length_pos.2 hne

theorem C7_today_monitor_witness :
    ((todayMonitor (fun _ => none)
        [⟨"T1", "sand", "2024-01-10 08:00", "", 30, 1000, 0, 0⟩]
        "2024-01-10" 60).items ≠ []) ∧
    (todayMonitor (fun _ => none)
        [⟨"T1", "sand", "2024-01-10 08:00", "", 30, 1000, 0, 0⟩]
        "2024-01-10" 60).avgRate
      = jsRound ((((todayMonitor (fun _ => none)
            [⟨"T1", "sand", "2024-01-10 08:00", "", 30, 1000, 0, 0⟩]
            "2024-01-10" 60).items.map (fun it => it.rate)).sum : ℚ)
          / (((todayMonitor (fun _ => none)
            [⟨"T1", "sand", "2024-01-10 08:00", "", 30, 1000, 0, 0⟩]
            "2024-01-10" 60).items.length : ℚ))) :=
  ⟨by decide,
   (C7_today_monitor (fun _ => none)
      [⟨"T1", "sand", "2024-01-10 08:00", "", 30, 1000, 0, 0⟩]
      "2024-01-10" 60).2.2 (by decide)⟩

theorem digitVal_le (c : Char) (h : isDigitCh c = true) : digitVal c ≤ 9 := by
  unfold isDigitCh at h
  rw [Bool.and_eq_true, decide_eq_true_eq, decide_eq_true_eq] at h
  have a1 : '0'.toNat ≤ c.toNat := h.1
  have a2 : c.toNat ≤ '9'.toNat := h.2
  have e1 : '0'.toNat = 48 := rfl
  have e2 : '9'.toNat = 57 := rfl
  unfold digitVal
  omega

theorem digit_not_sep (c : Char) (h : isDigitCh c = true) : isSep c = false := by
  unfold isDigitCh at h
  rw [Bool.and_eq_true, decide_eq_true_eq, decide_eq_true_eq] at h
  have a1 : '0'.toNat ≤ c.toNat := h.1
  unfold isSep
  simp only [Bool.or_eq_false_iff, decide_eq_false_iff_not]
  refine ⟨⟨?_, ?_⟩, ?_⟩ <;>
    · intro he
      subst he
      revert a1
      decide

/-- A date token matched by the year-first pattern cannot match the
day-first pattern: its third character is a digit where the day-first
pattern requires a separator. -/
theorem isoMatch_dmyMatch_exclusive (l : List Char) (p : Nat × Nat × Nat)
    (h : isoMatch l = some p) : dmyMatch l = none := by
  match l with
  | [] => exact absurd h (by simp [isoMatch])
  | [a] => exact absurd h (by simp [isoMatch])
  | [a, b] => exact absurd h (by simp [isoMatch])
  | [a, b, c] => exact absurd h (by simp [isoMatch])
  | [a, b, c, d] => exact absurd h (by simp [isoMatch])
  | a :: b :: c :: d :: s :: r =>
      simp only [isoMatch] at h
      by_cases hcond : (isDigitCh a && isDigitCh b && isDigitCh c && isDigitCh d
          && isSep s) = true
      · have hb : isDigitCh b = true := by
          simp only [Bool.and_eq_true] at hcond
          exact hcond.1.1.1.2
        have ha : isDigitCh a = true := by
          simp only [Bool.and_eq_true] at hcond
          exact hcond.1.1.1.1
        have hc : isDigitCh c = true := by
          simp only [Bool.and_eq_true] at hcond
          exact hcond.1.1.2
        unfold dmyMatch
        rw [show num12Sep (a :: b :: c :: d :: s :: r)
              = (if isDigitCh a then
                  if isDigitCh b then
                    (if isSep c then some (10 * digitVal a + digitVal b, d :: s :: r)
                     else none)
                  else if isSep b then some (digitVal a, c :: d :: s :: r) else none
                 else none) from rfl]
        rw [if_pos ha, if_pos hb, if_neg (by rw [digit_not_sep c hc]; exact Bool.false_ne_true)]
      · rw [if_neg hcond] at h
        exact absurd h (by simp)

/-- **C4.** `smartParseDate` tries the year-first pattern, then the day-first
pattern (which requires a four-digit year), then the generic fallback, and
yields `none` only when the attempted pattern parses are invalid; the two
literal examples parse to 2024-03-05T14:30 with the stated field conventions. -/
theorem C4_smart_parse_date :
    (∀ (fb : String → Option Int) (s : String), s ≠ "" →
      ∀ p, isoMatch (datePartOf s) = some p → smartParseDate fb s = isoAttempt s) ∧
    (∀ (fb : String → Option Int) (s : String), s ≠ "" →
      isoMatch (datePartOf s) = none →
      ∀ p, dmyMatch (datePartOf s) = some p → smartParseDate fb s = dmyAttempt s) ∧
    (∀ (fb : String → Option Int) (s : String), s ≠ "" →
      isoMatch (datePartOf s) = none → dmyMatch (datePartOf s) = none →
      smartParseDate fb s = fb (cleanStrOf s)) ∧
    (∀ (l : List Char) (d m y : Nat), dmyMatch l = some (d, m, y) → y ≤ 9999) ∧
    (∀ (fb : String → Option Int) (s : String), smartParseDate fb s = none →
      isoAttempt s = none ∧ dmyAttempt s = none) ∧
    (∀ fb, smartParseDate fb "2024-03-05 14:30" = some (mkDateRaw 2024 2 5 14 30)) ∧
    (∀ fb, smartParseDate fb "05/03/2024 14:30" = some (mkDateRaw 2024 2 5 14 30)) ∧
    (getFullYear (mkDateRaw 2024 2 5 14 30) = 2024 ∧
      getMonth0 (mkDateRaw 2024 2 5 14 30) + 1 = 3 ∧
      getDate (mkDateRaw 2024 2 5 14 30) = 5 ∧
      getHours (mkDateRaw 2024 2 5 14 30) = 14 ∧
      getMinutes (mkDateRaw 2024 2 5 14 30) = 30) := by
  have hiso : ∀ (fb : String → Option Int) (s : String), s ≠ "" →
      ∀ p, isoMatch (datePartOf s) = some p → smartParseDate fb s = isoAttempt s := by
    intro fb s hs p hp
    obtain ⟨y, m, d⟩ := p
    unfold smartParseDate isoAttempt
    rw [if_neg hs]
    simp only [hp]
  have hdmy : ∀ (fb : String → Option Int) (s : String), s ≠ "" →
      isoMatch (datePartOf s) = none →
      ∀ p, dmyMatch (datePartOf s) = some p → smartParseDate fb s = dmyAttempt s := by
    intro fb s hs hn p hp
    obtain ⟨d, m, y⟩ := p
    unfold smartParseDate dmyAttempt
    rw [if_neg hs]
    simp only [hn, hp]
  have hfall : ∀ (fb : String → Option Int) (s : String), s ≠ "" →
      isoMatch (datePartOf s) = none → dmyMatch (datePartOf s) = none →
      smartParseDate fb s = fb (cleanStrOf s) := by
    intro fb s hs hn1 hn2
    unfold smartParseDate
    rw [if_neg hs]
    simp only [hn1, hn2]
  have hyear : ∀ (l : List Char) (d m y : Nat), dmyMatch l = some (d, m, y) → y ≤ 9999 := by
    intro l d m y h
    unfold dmyMatch at h
    cases h1 : num12Sep l with
    | none => simp only [h1] at h; exact absurd h (by simp)
    | some q1 =>
        obtain ⟨d1, r1⟩ := q1
        simp only [h1] at h
        cases h2 : num12Sep r1 with
        | none => simp only [h2] at h; exact absurd h (by simp)
        | some q2 =>
            obtain ⟨m1, r2⟩ := q2
            simp only [h2, Option.map_eq_some'] at h
            obtain ⟨y1, hy1, hy2⟩ := h
            have hy : y1 = y := congrArg (fun t => t.2.2) hy2
            match r2, hy1 with
            | [], hy1 => exact absurd hy1 (by simp [num4])
            | [a], hy1 => exact absurd hy1 (by simp [num4])
            | [a, b], hy1 => exact absurd hy1 (by simp [num4])
            | [a, b, c], hy1 => exact absurd hy1 (by simp [num4])
            | a :: b :: c :: d' :: t, hy1 =>
                simp only [num4] at hy1
                split at hy1
                · rename_i hdig
                  simp only [Bool.and_eq_true] at hdig
                  injection hy1 with hv
                  have va := digitVal_le a hdig.1.1.1
                  have vb := digitVal_le b hdig.1.1.2
                  have vc := digitVal_le c hdig.1.2
                  have vd := digitVal_le d' hdig.2
                  have he : digitsToNat [a, b, c, d']
                      = 10 * (10 * (10 * (10 * 0 + digitVal a) + digitVal b)
                          + digitVal c) + digitVal d' := rfl
                  omega
                · exact absurd hy1 (by simp)
  refine ⟨hiso, hdmy, hfall, hyear, ?_, ?_, ?_, ?_⟩
  · intro fb s hnone
    by_cases hs : s = ""
    · subst hs
      constructor <;> decide
    · cases hi : isoMatch (datePartOf s) with
      | some p =>
          have h1 := hiso fb s hs p hi
          rw [h1] at hnone
          refine ⟨hnone, ?_⟩
          unfold dmyAttempt
          rw [isoMatch_dmyMatch_exclusive _ p hi]
      | none =>
          cases hd : dmyMatch (datePartOf s) with
          | some p =>
              have h1 := hdmy fb s hs hi p hd
              rw [h1] at hnone
              refine ⟨?_, hnone⟩
              unfold isoAttempt
              rw [hi]
          | none =>
              refine ⟨?_, ?_⟩
              · unfold isoAttempt; rw [hi]
              · unfold dmyAttempt; rw [hd]
  · intro fb
    rw [hiso fb _ (by decide) (2024, 3, 5) (by decide)]
    decide
  · intro fb
    rw [hdmy fb _ (by decide) (by decide) (5, 3, 2024) (by decide)]
    decide
  · refine ⟨by decide, by decide, by decide, by decide, by decide⟩

theorem C4_smart_parse_date_witness :
    ("hello" : String) ≠ "" ∧ isoMatch (datePartOf "hello") = none ∧
    dmyMatch (datePartOf "hello") = none ∧
    smartParseDate (fun _ => some 42) "hello" = some 42 :=
  ⟨by decide, by decide, by decide,
   (C4_smart_parse_date.2.2.1 (fun _ => some 42) "hello" (by decide) (by decide)
      (by decide)).trans rfl⟩
